import Mathlib

/-!
Verification of the go-arcspace symbol table (`symbol/table.go`) and the
embedding shim (`cmd/archost-lib/main.go`) against their specification.

Shallow embedding conventions:
* Go byte strings are `List Nat` (each element a byte value; Go's `byte(x)`
  conversion is made explicit as `% 256`).
* The badger KV collaborator is a snapshot association list from key bytes to
  value bytes; transactions are modelled as atomic (single-threaded run,
  no conflict retry is ever triggered).
* `symbol.ID` is a `Nat` (the Go type is an unsigned integer, 40 bits on the
  wire).
* The external hash `bufs.HashBuf` is a parameter `hB` of every operation that
  probes the value cache; the code is parametric in it.
* Go slice reads are totalized with `List.getD` / `drop` / `take`; an
  out-of-bounds read (which panics in Go) is captured separately by the
  bounds predicate `entryBounds` used by claim C8.
-/

set_option maxRecDepth 100000

namespace ArcSpace

/-! ## Association-list helpers (caches keyed by `Nat`, KV store keyed by byte lists) -/

/-- Lookup in the in-memory caches (Go `map` read `st.valueCache[hash]`). -/
def cacheGet (k : Nat) : List (Nat × α) → Option α
  | [] => none
  | (k', v) :: t => if k' = k then some v else cacheGet k t

/-- Update in the in-memory caches (Go `map` write `st.valueCache[hash] = kv`):
replaces the binding for `k` if present, else appends. -/
def cacheSet (k : Nat) (v : α) : List (Nat × α) → List (Nat × α)
  | [] => [(k, v)]
  | (k', v') :: t => if k' = k then (k, v) :: t else (k', v') :: cacheSet k v t

/-- Read of the KV collaborator (`txn.Get`): `none` models badger's
key-not-found error. -/
def kvGet (k : List Nat) : List (List Nat × List Nat) → Option (List Nat)
  | [] => none
  | (k', v) :: t => if k' = k then some v else kvGet k t

/-- Write to the KV collaborator (`txn.Set` + commit). -/
def kvSet (k : List Nat) (v : List Nat) :
    List (List Nat × List Nat) → List (List Nat × List Nat)
  | [] => [(k, v)]
  | (k', v') :: t => if k' = k then (k, v) :: t else (k', v') :: kvSet k v t

/-- Largest key present in a cache; probing past it always misses. -/
def keyMax : List (Nat × α) → Nat
  | [] => 0
  | (k, _) :: t => max k (keyMax t)

/-! ## symbol.ID serialization (table.go lines 11-29) -/

/-- `IDSz` from the symbol package API: a symbol ID is 5 bytes on the wire. -/
def IDSz : Nat := 5

/-- `ID.WriteTo` (table.go:11-18): appends the 5 big-endian bytes of the ID.
Go's `byte(uint64(id)>>k)` is `id >>> k % 256`. -/
def idWriteTo (id : Nat) (io : List Nat) : List Nat :=
  io ++ [id >>> 32 % 256, id >>> 24 % 256, id >>> 16 % 256, id >>> 8 % 256,
    id % 256]

/-- `ID.ReadFrom` (table.go:20-29): reassembles the ID from the first 5 bytes
of `l` and returns `IDSz`.  Out-of-range reads (Go panics) are totalized with
`getD`; every caller in the source passes at least 5 bytes. -/
def idReadFrom (l : List Nat) : Nat × Nat :=
  (l.getD 0 0 <<< 32 ||| l.getD 1 0 <<< 24 ||| l.getD 2 0 <<< 16 |||
    l.getD 3 0 <<< 8 ||| l.getD 4 0, IDSz)

/-! ## Symbol table state (table.go lines 31-107) -/

/-- `kvEntry` (table.go:73-78).  Go uses `int32` fields; `poolIdx` is kept as
`Int` because `curBufPoolIdx` starts at `-1`, `poolOfs`/`len` are never
negative. -/
structure kvEntry where
  symID : Nat
  poolIdx : Int
  poolOfs : Nat
  len : Nat
deriving DecidableEq

/-- The zero value of `kvEntry` (Go `var kv kvEntry`). -/
def kvEntry.zero : kvEntry := { symID := 0, poolIdx := 0, poolOfs := 0, len := 0 }

/-- `symbolTable` (table.go:96-107) together with the pieces of `TableOpts`
the code reads (`DbKeyPrefix`, `PoolSz`) and the Issuer.

The Issuer implementation is not part of the sources under verification
(only `opts.Issuer.IssueNextID()` calls appear).  Modelled from the spec:
"Symbol IDs are issued monotonically by an Issuer and persisted"; the issuer
state is the next ID to hand out, `IssueNextID` returns it and increments.
The `db` field is `none` for a table with no backing store (`st.db == nil`).

`curBufPool` is not a separate field: Go keeps it aliased to
`bufPools[curBufPoolIdx]`, which is how the model reads and writes it. -/
structure symbolTable where
  dbKeyPfx : Nat
  poolSz : Nat
  db : Option (List (List Nat × List Nat))
  nextID : Nat
  valueCache : List (Nat × kvEntry)
  tokenCache : List (Nat × kvEntry)
  curBufPoolSz : Nat
  curBufPoolIdx : Int
  bufPools : List (List Nat)
deriving DecidableEq

/-- `openTable` initial state (table.go:47-53): empty caches,
`curBufPoolIdx = -1`, no pools. -/
def newTable (pfx poolSz : Nat) (db : Option (List (List Nat × List Nat)))
    (nextID : Nat) : symbolTable :=
  { dbKeyPfx := pfx, poolSz := poolSz, db := db, nextID := nextID,
    valueCache := [], tokenCache := [], curBufPoolSz := 0,
    curBufPoolIdx := -1, bufPools := [] }

/-- The pool bytes an entry refers to:
`st.bufPools[kv.poolIdx][kv.poolOfs : kv.poolOfs+kv.len]` (table.go:85,92).
Totalized; Go panics when out of bounds (see `entryBounds`). -/
def poolSegment (st : symbolTable) (kv : kvEntry) : List Nat :=
  ((st.bufPools.getD kv.poolIdx.toNat []).drop kv.poolOfs).take kv.len

/-- `equals` (table.go:80-86). -/
def equals (st : symbolTable) (kv : kvEntry) (buf : List Nat) : Bool :=
  buf.length = kv.len && poolSegment st kv = buf

/-- `bufForEntry` (table.go:88-93): `nil` for the zero entry. -/
def bufForEntry (st : symbolTable) (kv : kvEntry) : List Nat :=
  if kv.symID = 0 then [] else poolSegment st kv

/-! ## Cache probing (table.go:109-125 and 127-174)

Both `getIDFromCache` and `allocAndBindToID` run the same open-addressing
loop: starting from `hB buf`, scan upward until a slot is empty or holds an
entry equal to `buf`.  The loop terminates because slots above `keyMax` are
empty; `probeAux` carries that bound as structural fuel and returns exactly
the Go loop's final hash and finding (when the fuel `keyMax + 1 - hash` hits
0 the slot is provably empty, which is also what the loop does there). -/

def probeAux (st : symbolTable) (buf : List Nat) :
    Nat → Nat → Nat × Option kvEntry
  | 0, hash => (hash, none)
  | fuel + 1, hash =>
    match cacheGet hash st.valueCache with
    | none => (hash, none)
    | some kv =>
      if equals st kv buf then (hash, some kv)
      else probeAux st buf fuel (hash + 1)

/-- The probe loop of table.go:115-121 / 133-140, started at `hash`. -/
def probe (st : symbolTable) (buf : List Nat) (hash : Nat) :
    Nat × Option kvEntry :=
  probeAux st buf (keyMax st.valueCache + 1 - hash) hash

/-- `getIDFromCache` (table.go:109-125). -/
def getIDFromCache (hB : List Nat → Nat) (st : symbolTable) (buf : List Nat) :
    Nat :=
  match probe st buf (hB buf) with
  | (_, some kv) => kv.symID
  | (_, none) => 0

/-- Pool allocation check of `allocAndBindToID` (table.go:153-159): when the
current pool lacks space for `len` more bytes, append a fresh pool of
`max(PoolSz, len)` zero bytes and point `curBufPoolIdx` at it. -/
def growPool (st : symbolTable) (len : Nat) : symbolTable :=
  if st.curBufPoolSz + len >
      (st.bufPools.getD st.curBufPoolIdx.toNat []).length then
    { st with
      bufPools := st.bufPools ++ [List.replicate (max st.poolSz len) 0],
      curBufPoolSz := 0,
      curBufPoolIdx := st.curBufPoolIdx + 1 }
  else st

/-- Entry write of `allocAndBindToID` (table.go:160-173): copy `buf` into the
current pool at `curBufPoolSz` and store the entry in both caches at the
settled slot `hash` and under `bindID`. -/
def writeEntry (st : symbolTable) (hash : Nat) (buf : List Nat)
    (bindID : Nat) : symbolTable × kvEntry :=
  let kv : kvEntry :=
    { symID := bindID, poolIdx := st.curBufPoolIdx,
      poolOfs := st.curBufPoolSz, len := buf.length }
  let pool := st.bufPools.getD st.curBufPoolIdx.toNat []
  let pool' := pool.take kv.poolOfs ++ buf ++ pool.drop (kv.poolOfs + buf.length)
  ({ st with
      bufPools := st.bufPools.set st.curBufPoolIdx.toNat pool',
      curBufPoolSz := st.curBufPoolSz + buf.length,
      valueCache := cacheSet hash kv st.valueCache,
      tokenCache := cacheSet bindID kv st.tokenCache },
    kv)

/-- The write half of `allocAndBindToID` (table.go:150-173), entered once the
probe has settled on destination slot `hash`. -/
def bindNew (st : symbolTable) (hash : Nat) (buf : List Nat) (bindID : Nat) :
    symbolTable × kvEntry :=
  writeEntry (growPool st buf.length) hash buf bindID

/-- `allocAndBindToID` (table.go:127-174): no-op when the probe finds an
entry already bound to `bindID`, otherwise (re)writes the settled slot. -/
def allocAndBindToID (hB : List Nat → Nat) (st : symbolTable)
    (buf : List Nat) (bindID : Nat) : symbolTable × kvEntry :=
  match probe st buf (hB buf) with
  | (hash, some kv) =>
    if kv.symID = bindID then (st, kv) else bindNew st hash buf bindID
  | (hash, none) => bindNew st hash buf bindID

/-! ## Storage keys (table.go:219-225, 272-273, 321-323) -/

/-- Forward-index key: `keyBuf = [DbKeyPrefix, 0xFF, xValueIndex] ++ value`
(table.go:222-225; `xValueIndex = 0xFE`). -/
def forwardKey (pfx : Nat) (val : List Nat) : List Nat :=
  pfx :: 0xFF :: 0xFE :: val

/-- Reverse-index key: `idBuf[0] = DbKeyPrefix; idKey = symID.WriteTo(idBuf[:1])`
(table.go:272-273 and 321-323) — the prefix byte followed directly by the
5 ID bytes. -/
def reverseKey (pfx : Nat) (id : Nat) : List Nat :=
  idWriteTo id [pfx]

/-- The forward binding the transaction reads for `val` (table.go:229-240):
0 unless the stored value is exactly `IDSz` bytes. -/
def dbFwd (st : symbolTable) (val : List Nat) : Nat :=
  match st.db with
  | none => 0
  | some db =>
    match kvGet (forwardKey st.dbKeyPfx val) db with
    | some buf => if buf.length = IDSz then (idReadFrom buf).1 else 0
    | none => 0

/-- The reverse binding stored for `id`, as read by `LookupID` (table.go:317-330). -/
def dbRev (st : symbolTable) (id : Nat) : Option (List Nat) :=
  match st.db with
  | none => none
  | some db => kvGet (reverseKey st.dbKeyPfx id) db

/-! ## getsetValueIDPair and the public operations (table.go:176-335) -/

/-- Tail of `getsetValueIDPair` (table.go:299-303): update the cache when the
effective ID is non-zero, return the ID. -/
def finishCache (hB : List Nat → Nat) (st : symbolTable) (val : List Nat)
    (symID : Nat) : symbolTable × Nat :=
  if symID ≠ 0 then ((allocAndBindToID hB st val symID).1, symID)
  else (st, symID)

/-- `getsetValueIDPair` (table.go:205-304).  The conflict-retry loop runs
once (atomic transaction model); issuer failures do not occur (the modelled
issuer is total); the `panic(err)` path is therefore never taken. -/
def getsetValueIDPair (hB : List Nat → Nat) (st : symbolTable)
    (val : List Nat) (symID₀ : Nat) (mapID : Bool) : symbolTable × Nat :=
  match st.db with
  | none =>
    -- table.go:207-210
    if symID₀ = 0 ∧ mapID = true then
      let st₁ := { st with nextID := st.nextID + 1 }
      finishCache hB st₁ val st.nextID
    else
      finishCache hB st val symID₀
  | some db =>
    let valKey := forwardKey st.dbKeyPfx val
    -- table.go:228-240: look up the existing forward binding
    let existingID : Nat :=
      if symID₀ = 0 ∨ mapID = false then
        match kvGet valKey db with
        | some buf => if buf.length = IDSz then (idReadFrom buf).1 else 0
        | none => 0
      else 0
    -- table.go:242-266: decide the reassignment flags
    let dec : Nat × Bool × Bool × symbolTable :=
      if symID₀ = 0 then
        if existingID ≠ 0 then (existingID, false, false, st)
        else if mapID then
          (st.nextID, true, true, { st with nextID := st.nextID + 1 })
        else (0, false, false, st)
      else
        if existingID = 0 then (symID₀, true, true, st)
        else if symID₀ ≠ existingID then
          if mapID then (existingID, true, true, st)
          else (symID₀, false, true, st)
        else (symID₀, false, false, st)
    let symID := dec.1
    let reassignID := dec.2.1
    let reassignVal := dec.2.2.1
    let st₁ := dec.2.2.2
    -- table.go:269-292: flush the assignment and commit
    let st₂ :=
      if reassignID = true ∨ reassignVal = true then
        let idKey := reverseKey st.dbKeyPfx symID
        let db₁ := kvSet valKey (idWriteTo symID []) db
        let db₂ := if reassignID then kvSet idKey val db₁ else db₁
        { st₁ with db := some db₂ }
      else st₁
    finishCache hB st₂ val symID

/-- `GetSymbolID` (table.go:176-184). -/
def GetSymbolID (hB : List Nat → Nat) (st : symbolTable) (val : List Nat)
    (autoIssue : Bool) : symbolTable × Nat :=
  let symID := getIDFromCache hB st val
  if symID ≠ 0 then (st, symID)
  else getsetValueIDPair hB st val 0 autoIssue

/-- `SetSymbolID` (table.go:186-189). -/
def SetSymbolID (hB : List Nat → Nat) (st : symbolTable) (val : List Nat)
    (symID : Nat) : symbolTable × Nat :=
  getsetValueIDPair hB st val symID (symID = 0)

/-- `LookupID` (table.go:306-335): returns `[]` for Go's `nil`. -/
def LookupID (hB : List Nat → Nat) (st : symbolTable) (symID : Nat) :
    symbolTable × List Nat :=
  if symID = 0 then (st, [])
  else
    match cacheGet symID st.tokenCache with
    | some kv => (st, bufForEntry st kv)
    | none =>
      match st.db with
      | none => (st, bufForEntry st kvEntry.zero)
      | some db =>
        match kvGet (reverseKey st.dbKeyPfx symID) db with
        | some val =>
          let r := allocAndBindToID hB st val symID
          (r.1, bufForEntry r.1 r.2)
        | none => (st, bufForEntry st kvEntry.zero)

/-! ## Bounds predicate for claim C8 -/

/-- An entry's pool reference is in bounds: `poolIdx` names an existing pool
and `poolOfs + len` stays inside it.  This is exactly the condition under
which the Go slice expressions in `equals` and `bufForEntry`
(table.go:85,92) do not panic. -/
def entryBounds (st : symbolTable) (kv : kvEntry) : Prop :=
  0 ≤ kv.poolIdx ∧ kv.poolIdx.toNat < st.bufPools.length ∧
    kv.poolOfs + kv.len ≤ (st.bufPools.getD kv.poolIdx.toNat []).length

instance (st : symbolTable) (kv : kvEntry) : Decidable (entryBounds st kv) := by
  unfold entryBounds; infer_instance

/-! ## Concrete scenario material -/

/-- A concrete stand-in for the external 64-bit hash `bufs.HashBuf`; any
function works, collisions are resolved by the probe loop. -/
def tHash (l : List Nat) : Nat :=
  l.foldl (fun h b => h + b + 1) 0

/-- The bytes of `"alpha"`. -/
def alphaV : List Nat := [97, 108, 112, 104, 97]

/-- The bytes of `"beta"`. -/
def betaV : List Nat := [98, 101, 116, 97]

/-- A fresh db-backed table: empty store, prefix byte 0, `PoolSz` 8 (the
option is caller-chosen; a small pool keeps concrete states small), issuer
at 1. -/
def freshDB : symbolTable := newTable 0 8 (some []) 1

/-- Scenario E state: `SetSymbolID("alpha", 7)` then `SetSymbolID("beta", 7)`
on a fresh table. -/
def scenarioE : symbolTable :=
  (SetSymbolID tHash (SetSymbolID tHash freshDB alphaV 7).1 betaV 7).1

/-- C4 scenario: a table whose store maps `alphaV` forward to ID 5. -/
def stC4 : symbolTable := (SetSymbolID tHash freshDB alphaV 5).1

/-- C5 scenario: `SetSymbolID("alpha", 7)` on a fresh table. -/
def setAlpha7 : symbolTable := (SetSymbolID tHash freshDB alphaV 7).1

/-- A fresh table with no backing store (`st.db == nil`, table.go:207). -/
def stNoDB : symbolTable := newTable 0 8 none 1

/-- C6 scenario: `alphaV` interned once on the no-store table. -/
def st6 : symbolTable := (GetSymbolID tHash stNoDB alphaV true).1

/-! ## Invariants of well-formed tables

`GoodPools` states that the pool arena and the two caches are internally
consistent (what `openTable` establishes and the operations maintain);
`Good` adds the cache/store consistency that holds as long as the table is
driven through `GetSymbolID` / `LookupID` only (no explicit `SetSymbolID`
rebinding).  `NB` bounds the IDs in play: reverse keys of IDs below
`255 * 2 ^ 32` cannot collide with each other or with forward keys. -/

/-- Upper bound on issued IDs for key-disjointness: below `255 * 2 ^ 32` the
reverse key's second byte is never `0xFF`. -/
def NB : Nat := 255 * 2 ^ 32

/-- How many bytes of pool `i` are committed (owned by some cache entry or
dead): all of it for full pools, `curBufPoolSz` for the pool being filled. -/
def committedLen (st : symbolTable) (i : Nat) : Nat :=
  if i + 1 = st.bufPools.length then st.curBufPoolSz
  else (st.bufPools.getD i []).length

/-- A live cache entry: non-zero ID and a pool reference inside the
committed region (in particular inside the pool, see `entryBounds`). -/
def entryOK (st : symbolTable) (kv : kvEntry) : Prop :=
  kv.symID ≠ 0 ∧ 0 ≤ kv.poolIdx ∧ kv.poolIdx.toNat < st.bufPools.length ∧
    kv.poolOfs + kv.len ≤ committedLen st kv.poolIdx.toNat

instance (st : symbolTable) (kv : kvEntry) : Decidable (entryOK st kv) := by
  unfold entryOK; infer_instance

/-- Arena/cache consistency. `chain` says every value-cache entry sits on a
gapless probe run starting at its buffer's hash (open addressing never
deletes, so runs stay gapless). -/
structure GoodPools (hB : List Nat → Nat) (st : symbolTable) : Prop where
  idx_last : st.curBufPoolIdx = (st.bufPools.length : Int) - 1
  sz_le : st.curBufPoolSz ≤
    (st.bufPools.getD (st.bufPools.length - 1) []).length
  vc_ok : ∀ p ∈ st.valueCache, entryOK st p.2
  tc_ok : ∀ p ∈ st.tokenCache, entryOK st p.2 ∧ p.2.symID = p.1
  chain : ∀ h kv, cacheGet h st.valueCache = some kv →
    hB (poolSegment st kv) ≤ h ∧
      ∀ i, hB (poolSegment st kv) ≤ i → i ≤ h →
        (cacheGet i st.valueCache).isSome = true

/-- Full consistency for tables driven by interning and lookup only. -/
structure Good (hB : List Nat → Nat) (st : symbolTable)
    extends GoodPools hB st : Prop where
  nextID_pos : 0 < st.nextID
  vc_lt : ∀ p ∈ st.valueCache, p.2.symID < st.nextID
  tc_lt : ∀ p ∈ st.tokenCache, p.1 < st.nextID
  link : ∀ p ∈ st.valueCache, ∃ kv',
    cacheGet p.2.symID st.tokenCache = some kv' ∧
      poolSegment st kv' = poolSegment st p.2
  fwd_ok : ∀ v, dbFwd st v ≠ 0 →
    getIDFromCache hB st v = dbFwd st v ∧ dbFwd st v < st.nextID
  rev_ok : ∀ i w, i < NB → dbRev st i = some w →
    w ≠ [] ∧ i ≠ 0 ∧ i < st.nextID ∧ dbFwd st w = i

/-- The token cache binds ID `x` to value `v`. -/
def tokenBound (st : symbolTable) (x : Nat) (v : List Nat) : Prop :=
  ∃ kv, cacheGet x st.tokenCache = some kv ∧ poolSegment st kv = v

/-- Operations a client may run between an interning and a later lookup
(claim C2 talks about "subsequent" calls on the same table). -/
inductive TOp where
  | getID : List Nat → Bool → TOp
  | look : Nat → TOp

/-- Run one operation, keeping the table state. -/
def runOp (hB : List Nat → Nat) (st : symbolTable) : TOp → symbolTable
  | TOp.getID v auto => (GetSymbolID hB st v auto).1
  | TOp.look i => (LookupID hB st i).1

/-- Run a sequence of operations. -/
def runOps (hB : List Nat → Nat) (st : symbolTable) (ops : List TOp) :
    symbolTable :=
  ops.foldl (runOp hB) st

/-- Auto-interning is only considered for non-empty values (interning the
empty value on a fresh arena hits the out-of-bounds defect of claim C8),
and lookups for IDs inside the usable 40-bit key space (beyond `NB`, the
reverse key of an ID aliases a smaller ID's key). -/
def opOK : TOp → Prop
  | TOp.getID v auto => auto = true → v ≠ []
  | TOp.look i => i < NB

/-- The administrative state `getsetValueIDPair` passes to `finishCache` on
the fresh-issue paths (table.go:249-292): the next-ID counter bumped and the
store replaced by `d` (unchanged store, or the store with the two writes). -/
def issueSt (st : symbolTable) (d : Option (List (List Nat × List Nat))) :
    symbolTable :=
  { st with nextID := st.nextID + 1, db := d }

/-! ## The embedding shim (`cmd/archost-lib/main.go`)

The shim's collaborators (`archost.StartNewHost`, `LibService.StartService`,
`NewLibSession`, `arc.Msg.Unmarshal`) live elsewhere in the repository, not
in the sources under `src/`.  Modelled from the spec: a lib session owns an
inbound and an outbound Msg queue ("Blocking calls to send/recv Msgs to the
host"); `Msg.Unmarshal` is an abstract fallible decoder (the standard
length-prefixed record format is out of scope), passed in as a parameter
`um`; service/session startup outcomes are abstract booleans. -/

structure LibSessState where
  inQueue : List (List Nat)
  outQueue : List (List Nat)
deriving DecidableEq

/-- The process-global slots `gLibSession` / `gLibService`
(main.go:16-19). -/
structure LibState where
  gLibSession : Option LibSessState
  gLibService : Option Unit
deriving DecidableEq

/-- Outcomes of the two fallible startup calls in `Call_SessionBegin`. -/
structure BeginEnv where
  startServiceOK : Bool
  newSessionOK : Bool

/-- `Call_SessionBegin` (main.go:22-47).  Returns the new global state, the
session handle (0 on failure or when a session is already active), and
whether `archost.StartNewHost` was invoked. -/
def Call_SessionBegin (st : LibState) (env : BeginEnv) :
    LibState × Int × Bool :=
  if st.gLibSession.isSome then (st, 0, false)
  else
    -- h := archost.StartNewHost(hostOpts)
    -- gLibService = opts.NewLibService() is assigned before StartService
    let st₁ : LibState := { st with gLibService := some () }
    if env.startServiceOK && env.newSessionOK then
      ({ st₁ with gLibSession := some { inQueue := [], outQueue := [] } },
        12345, true)
    else
      -- error path: h.Error(errMsg); h.Close(); return 0
      (st₁, 0, true)

/-- `Call_PushMsg` (main.go:76-88).  The `Option Int` result is `none` when
the Go code panics (`Unmarshal` failed). -/
def Call_PushMsg (um : List Nat → Option (List Nat)) (st : LibState)
    (msg_pb : List Nat) : LibState × Option Int :=
  match st.gLibSession with
  | none => (st, some (-1))
  | some sess =>
    match um msg_pb with
    | none => (st, none)
    | some m =>
      ({ st with gLibSession := some { sess with inQueue := sess.inQueue ++ [m] } },
        some 0)

/-- `Call_WaitOnMsg` (main.go:91-99).  `DequeueOutgoing`'s error is ignored;
the blocking wait is abstracted as popping the head of the outbound queue if
one is present. -/
def Call_WaitOnMsg (st : LibState) :
    LibState × Int × Option (List Nat) :=
  match st.gLibSession with
  | none => (st, -1, none)
  | some sess =>
    match sess.outQueue with
    | [] => (st, 0, none)
    | m :: rest =>
      ({ st with gLibSession := some { sess with outQueue := rest } }, 0, some m)

/-! ## Bitwise facts for the ID round-trip (claim C7) -/

/-- Bit `j` of `x * 2 ^ n`. -/
theorem testBit_mul_two_pow (x n j : Nat) :
    (x * 2 ^ n).testBit j = if j < n then false else x.testBit (j - n) := by
  have h0 : (0 : Nat) < 2 ^ n := by positivity
  have h := Nat.testBit_mul_pow_two_add x h0 j
  rw [Nat.add_zero] at h
  calc (x * 2 ^ n).testBit j = (2 ^ n * x).testBit j := by rw [Nat.mul_comm]
    _ = if j < n then (0 : Nat).testBit j else x.testBit (j - n) := h
    _ = if j < n then false else x.testBit (j - n) := by
        by_cases hj : j < n <;> simp [hj]

/-- Oring a low part below `2 ^ n` into a multiple of `2 ^ n` is addition. -/
theorem mul_two_pow_lor_eq_add (a b n : Nat) (hb : b < 2 ^ n) :
    a * 2 ^ n ||| b = a * 2 ^ n + b := by
  apply Nat.eq_of_testBit_eq
  intro j
  rw [Nat.testBit_lor, testBit_mul_two_pow, Nat.mul_comm,
    Nat.testBit_mul_pow_two_add a hb j]
  by_cases h : j < n
  · simp [h]
  · have h2 : b.testBit j = false := by
      apply Nat.testBit_lt_two_pow
      calc b < 2 ^ n := hb
        _ ≤ 2 ^ j := Nat.pow_le_pow_right (by norm_num) (Nat.le_of_not_lt h)
    simp [h, h2]

/-- `|||` distributes over multiplication by a power of two. -/
theorem lor_mul_two_pow (a b n : Nat) :
    (a ||| b) * 2 ^ n = a * 2 ^ n ||| b * 2 ^ n := by
  apply Nat.eq_of_testBit_eq
  intro j
  rw [Nat.testBit_lor, testBit_mul_two_pow, testBit_mul_two_pow,
    testBit_mul_two_pow, Nat.testBit_lor]
  by_cases h : j < n <;> simp [h]

/-- One byte-assembly step of `ID.ReadFrom`. -/
theorem lor_byte_step (x b n : Nat) (hb : b < 2 ^ 8) :
    x * 2 ^ (n + 8) ||| b * 2 ^ n = (x * 2 ^ 8 + b) * 2 ^ n := by
  have h1 : x * 2 ^ (n + 8) = x * 2 ^ 8 * 2 ^ n := by
    rw [Nat.pow_add]; ring
  rw [h1, ← lor_mul_two_pow, mul_two_pow_lor_eq_add _ _ _ hb]

/-- `ID.ReadFrom` undoes `ID.WriteTo` for any 40-bit ID. -/
theorem idReadFrom_idWriteTo (id : Nat) (h : id < 2 ^ 40) :
    idReadFrom (idWriteTo id []) = (id, IDSz) := by
  rw [Prod.mk.injEq]
  refine ⟨?_, rfl⟩
  show (id >>> 32 % 256) <<< 32 ||| (id >>> 24 % 256) <<< 24 |||
      (id >>> 16 % 256) <<< 16 ||| (id >>> 8 % 256) <<< 8 ||| id % 256 = id
  have e256 : (256 : Nat) = 2 ^ 8 := by norm_num
  rw [Nat.shiftLeft_eq, Nat.shiftLeft_eq, Nat.shiftLeft_eq, Nat.shiftLeft_eq,
    Nat.shiftRight_eq_div_pow, Nat.shiftRight_eq_div_pow,
    Nat.shiftRight_eq_div_pow, Nat.shiftRight_eq_div_pow]
  have hb : ∀ x : Nat, x % 256 < 2 ^ 8 := by
    intro x; rw [← e256]; exact Nat.mod_lt _ (by norm_num)
  have s1 : id / 2 ^ 32 % 256 * 2 ^ 32 ||| id / 2 ^ 24 % 256 * 2 ^ 24 =
      (id / 2 ^ 32 % 256 * 2 ^ 8 + id / 2 ^ 24 % 256) * 2 ^ 24 := by
    have := lor_byte_step (id / 2 ^ 32 % 256) (id / 2 ^ 24 % 256) 24 (hb _)
    norm_num at this ⊢
    exact this
  rw [s1]
  have s2 : (id / 2 ^ 32 % 256 * 2 ^ 8 + id / 2 ^ 24 % 256) * 2 ^ 24 |||
      id / 2 ^ 16 % 256 * 2 ^ 16 =
      ((id / 2 ^ 32 % 256 * 2 ^ 8 + id / 2 ^ 24 % 256) * 2 ^ 8 +
        id / 2 ^ 16 % 256) * 2 ^ 16 := by
    have := lor_byte_step (id / 2 ^ 32 % 256 * 2 ^ 8 + id / 2 ^ 24 % 256)
      (id / 2 ^ 16 % 256) 16 (hb _)
    norm_num at this ⊢
    exact this
  rw [s2]
  have s3 : ((id / 2 ^ 32 % 256 * 2 ^ 8 + id / 2 ^ 24 % 256) * 2 ^ 8 +
      id / 2 ^ 16 % 256) * 2 ^ 16 ||| id / 2 ^ 8 % 256 * 2 ^ 8 =
      (((id / 2 ^ 32 % 256 * 2 ^ 8 + id / 2 ^ 24 % 256) * 2 ^ 8 +
        id / 2 ^ 16 % 256) * 2 ^ 8 + id / 2 ^ 8 % 256) * 2 ^ 8 := by
    have := lor_byte_step ((id / 2 ^ 32 % 256 * 2 ^ 8 + id / 2 ^ 24 % 256) *
      2 ^ 8 + id / 2 ^ 16 % 256) (id / 2 ^ 8 % 256) 8 (hb _)
    norm_num at this ⊢
    exact this
  rw [s3]
  have s4 := mul_two_pow_lor_eq_add (((id / 2 ^ 32 % 256 * 2 ^ 8 +
    id / 2 ^ 24 % 256) * 2 ^ 8 + id / 2 ^ 16 % 256) * 2 ^ 8 +
    id / 2 ^ 8 % 256) (id % 256) 8 (hb _)
  rw [s4]
  have h40 : id < 1099511627776 := by norm_num at h ⊢; omega
  omega

/-- `reverseKey` spelled as a cons. -/
theorem reverseKey_eq_cons (pfx id : Nat) :
    reverseKey pfx id = pfx :: idWriteTo id [] := by
  simp [reverseKey, idWriteTo]

/-- Forward keys and reverse keys never collide while IDs stay below
`255 * 2 ^ 32` (the reverse key's second byte is then below `0xFF`). -/
theorem forwardKey_ne_reverseKey (pfx : Nat) (v : List Nat) (id : Nat)
    (h : id < 255 * 2 ^ 32) : forwardKey pfx v ≠ reverseKey pfx id := by
  rw [reverseKey_eq_cons]
  intro he
  have h2 : (255 : Nat) = id >>> 32 % 256 := by
    have := congrArg (fun l => List.getD l 1 0) he
    simpa [forwardKey, idWriteTo] using this
  rw [Nat.shiftRight_eq_div_pow] at h2
  have h3 : id / 2 ^ 32 < 255 := by
    apply (Nat.div_lt_iff_lt_mul (by positivity)).mpr
    omega
  omega

/-- Reverse keys are injective on 40-bit IDs. -/
theorem reverseKey_inj (pfx i j : Nat) (hi : i < 2 ^ 40) (hj : j < 2 ^ 40)
    (h : reverseKey pfx i = reverseKey pfx j) : i = j := by
  rw [reverseKey_eq_cons, reverseKey_eq_cons] at h
  have h2 : idWriteTo i [] = idWriteTo j [] := by
    injection h
  have h3 := congrArg idReadFrom h2
  rw [idReadFrom_idWriteTo i hi, idReadFrom_idWriteTo j hj,
    Prod.mk.injEq] at h3
  exact h3.1

/-- Forward keys are injective in the value. -/
theorem forwardKey_inj (pfx : Nat) (v w : List Nat)
    (h : forwardKey pfx v = forwardKey pfx w) : v = w := by
  simpa [forwardKey] using h

/-! ## Association-list lemmas -/

theorem kvGet_kvSet_same (k v : List Nat) (db : List (List Nat × List Nat)) :
    kvGet k (kvSet k v db) = some v := by
  induction db with
  | nil => simp [kvGet, kvSet]
  | cons p t ih =>
    by_cases h : p.1 = k
    · simp [kvGet, kvSet, h]
    · simp [kvGet, kvSet, h, ih]

theorem kvGet_kvSet_ne (k k' v : List Nat) (db : List (List Nat × List Nat))
    (h : k' ≠ k) : kvGet k' (kvSet k v db) = kvGet k' db := by
  have hkk : ¬ (k = k') := fun e => h e.symm
  induction db with
  | nil => simp [kvGet, kvSet, hkk]
  | cons p t ih =>
    by_cases hp : p.1 = k
    · have hp' : ¬ (p.1 = k') := by rw [hp]; exact hkk
      simp [kvGet, kvSet, hp, hkk, hp']
    · by_cases hp' : p.1 = k' <;> simp [kvGet, kvSet, hp, hp', ih, h]

theorem cacheGet_cacheSet_same (k : Nat) (v : α) (c : List (Nat × α)) :
    cacheGet k (cacheSet k v c) = some v := by
  induction c with
  | nil => simp [cacheGet, cacheSet]
  | cons p t ih =>
    by_cases h : p.1 = k
    · simp [cacheGet, cacheSet, h]
    · simp [cacheGet, cacheSet, h, ih]

theorem cacheGet_cacheSet_ne (k k' : Nat) (v : α) (c : List (Nat × α))
    (h : k' ≠ k) : cacheGet k' (cacheSet k v c) = cacheGet k' c := by
  have hkk : ¬ (k = k') := fun e => h e.symm
  induction c with
  | nil => simp [cacheGet, cacheSet, hkk]
  | cons p t ih =>
    by_cases hp : p.1 = k
    · have hp' : ¬ (p.1 = k') := by rw [hp]; exact hkk
      simp [cacheGet, cacheSet, hp, hkk, hp']
    · by_cases hp' : p.1 = k' <;> simp [cacheGet, cacheSet, hp, hp', ih, h]

theorem cacheGet_mem {k : Nat} {v : α} {c : List (Nat × α)}
    (h : cacheGet k c = some v) : (k, v) ∈ c := by
  induction c with
  | nil => simp [cacheGet] at h
  | cons p t ih =>
    by_cases hp : p.1 = k
    · simp [cacheGet, hp] at h
      have hpv : p = (k, v) := Prod.ext hp h
      rw [← hpv]
      exact List.mem_cons_self _ _
    · simp [cacheGet, hp] at h
      exact List.mem_cons_of_mem _ (ih h)

theorem mem_cacheSet {k : Nat} {v : α} {c : List (Nat × α)} {p : Nat × α}
    (h : p ∈ cacheSet k v c) : p = (k, v) ∨ p ∈ c := by
  induction c with
  | nil => simpa [cacheSet] using h
  | cons q t ih =>
    by_cases hq : q.1 = k
    · simp [cacheSet, hq] at h
      rcases h with h | h
      · exact Or.inl h
      · exact Or.inr (List.mem_cons_of_mem _ h)
    · simp [cacheSet, hq] at h
      rcases h with h | h
      · exact Or.inr (by simp [h])
      · rcases ih h with h' | h'
        · exact Or.inl h'
        · exact Or.inr (List.mem_cons_of_mem _ h')

theorem cacheGet_le_keyMax {k : Nat} {v : α} {c : List (Nat × α)}
    (h : cacheGet k c = some v) : k ≤ keyMax c := by
  induction c with
  | nil => simp [cacheGet] at h
  | cons p t ih =>
    by_cases hp : p.1 = k
    · simp [keyMax]
      omega
    · simp [cacheGet, hp] at h
      have := ih h
      simp [keyMax]
      omega

theorem cacheGet_none_of_gt {k : Nat} {c : List (Nat × α)}
    (h : keyMax c < k) : cacheGet k c = none := by
  cases hc : cacheGet k c with
  | none => rfl
  | some v => exact absurd (cacheGet_le_keyMax hc) (by omega)

/-! ## Probe lemmas -/

/-- The probe satisfies the Go loop's step equation. -/
theorem probe_eq (st : symbolTable) (buf : List Nat) (hash : Nat) :
    probe st buf hash =
      match cacheGet hash st.valueCache with
      | none => (hash, none)
      | some kv =>
        if equals st kv buf then (hash, some kv)
        else probe st buf (hash + 1) := by
  cases hc : cacheGet hash st.valueCache with
  | none =>
    unfold probe
    cases hf : keyMax st.valueCache + 1 - hash with
    | zero => simp [probeAux]
    | succ f => simp [probeAux, hc]
  | some kv =>
    have hle : hash ≤ keyMax st.valueCache := cacheGet_le_keyMax hc
    have hf : keyMax st.valueCache + 1 - hash =
        (keyMax st.valueCache + 1 - (hash + 1)) + 1 := by omega
    unfold probe
    rw [hf]
    simp [probeAux, hc]

theorem probeAux_found {st : symbolTable} {buf : List Nat} {kv : kvEntry} :
    ∀ {fuel hash h : Nat}, probeAux st buf fuel hash = (h, some kv) →
      cacheGet h st.valueCache = some kv ∧ equals st kv buf = true ∧
        hash ≤ h := by
  intro fuel
  induction fuel with
  | zero =>
    intro hash h hp
    simp [probeAux] at hp
  | succ f ih =>
    intro hash h hp
    rw [probeAux] at hp
    cases hc : cacheGet hash st.valueCache with
    | none => rw [hc] at hp; simp at hp
    | some kv' =>
      rw [hc] at hp
      by_cases he : equals st kv' buf
      · simp [he] at hp
        obtain ⟨h1, h2⟩ := hp
        subst h1
        subst h2
        exact ⟨hc, he, le_refl _⟩
      · simp [he] at hp
        obtain ⟨h1, h2, h3⟩ := ih hp
        exact ⟨h1, h2, by omega⟩

theorem probe_found {st : symbolTable} {buf : List Nat} {hash h : Nat}
    {kv : kvEntry} (hp : probe st buf hash = (h, some kv)) :
    cacheGet h st.valueCache = some kv ∧ equals st kv buf = true ∧
      hash ≤ h :=
  probeAux_found hp

theorem probeAux_none {st : symbolTable} {buf : List Nat} :
    ∀ {fuel hash h : Nat}, keyMax st.valueCache + 1 - hash ≤ fuel →
      probeAux st buf fuel hash = (h, none) →
      cacheGet h st.valueCache = none ∧ hash ≤ h := by
  intro fuel
  induction fuel with
  | zero =>
    intro hash h hb hp
    simp [probeAux] at hp
    subst hp
    exact ⟨cacheGet_none_of_gt (by omega), le_refl _⟩
  | succ f ih =>
    intro hash h hb hp
    rw [probeAux] at hp
    cases hc : cacheGet hash st.valueCache with
    | none =>
      rw [hc] at hp
      simp at hp
      subst hp
      exact ⟨hc, le_refl _⟩
    | some kv' =>
      rw [hc] at hp
      by_cases he : equals st kv' buf
      · simp [he] at hp
      · simp [he] at hp
        have hle : hash ≤ keyMax st.valueCache := cacheGet_le_keyMax hc
        have h2 := ih (by omega) hp
        exact ⟨h2.1, by omega⟩

theorem probe_none {st : symbolTable} {buf : List Nat} {hash h : Nat}
    (hp : probe st buf hash = (h, none)) :
    cacheGet h st.valueCache = none ∧ hash ≤ h :=
  probeAux_none (le_refl _) hp

/-! ## Small facts about allocAndBindToID and getIDFromCache -/

/-- `allocAndBindToID` never touches the store, the issuer, or the options. -/
theorem growPool_admin (st : symbolTable) (len : Nat) :
    (growPool st len).db = st.db ∧ (growPool st len).nextID = st.nextID ∧
    (growPool st len).dbKeyPfx = st.dbKeyPfx ∧
    (growPool st len).poolSz = st.poolSz ∧
    (growPool st len).valueCache = st.valueCache ∧
    (growPool st len).tokenCache = st.tokenCache := by
  unfold growPool
  split <;> simp

theorem bindNew_admin (st : symbolTable) (hsh : Nat) (buf : List Nat)
    (b : Nat) :
    (bindNew st hsh buf b).1.db = st.db ∧
    (bindNew st hsh buf b).1.nextID = st.nextID ∧
    (bindNew st hsh buf b).1.dbKeyPfx = st.dbKeyPfx ∧
    (bindNew st hsh buf b).1.poolSz = st.poolSz := by
  have hg := growPool_admin st buf.length
  unfold bindNew writeEntry
  exact ⟨hg.1, hg.2.1, hg.2.2.1, hg.2.2.2.1⟩

theorem alloc_admin (hB : List Nat → Nat) (st : symbolTable) (buf : List Nat)
    (b : Nat) :
    (allocAndBindToID hB st buf b).1.db = st.db ∧
    (allocAndBindToID hB st buf b).1.nextID = st.nextID ∧
    (allocAndBindToID hB st buf b).1.dbKeyPfx = st.dbKeyPfx ∧
    (allocAndBindToID hB st buf b).1.poolSz = st.poolSz := by
  unfold allocAndBindToID
  cases hp : probe st buf (hB buf) with
  | mk hsh r =>
    cases r with
    | none => exact bindNew_admin st hsh buf b
    | some kv =>
      by_cases hkv : kv.symID = b
      · simp [hkv]
      · simp only [hkv, if_false]
        exact bindNew_admin st hsh buf b

/-- When the probe finds the value already bound to `bindID`, the alloc is a
no-op returning the found entry (table.go:142-145). -/
theorem alloc_found_same {hB : List Nat → Nat} {st : symbolTable}
    {buf : List Nat} {h b : Nat} {kv : kvEntry}
    (hp : probe st buf (hB buf) = (h, some kv)) (hkv : kv.symID = b) :
    allocAndBindToID hB st buf b = (st, kv) := by
  unfold allocAndBindToID
  rw [hp]
  simp [hkv]

/-- Reading `getIDFromCache` back as a probe outcome. -/
theorem getIDFromCache_cases (hB : List Nat → Nat) (st : symbolTable)
    (buf : List Nat) :
    (∃ h, probe st buf (hB buf) = (h, none) ∧ getIDFromCache hB st buf = 0) ∨
    (∃ h kv, probe st buf (hB buf) = (h, some kv) ∧
      getIDFromCache hB st buf = kv.symID) := by
  unfold getIDFromCache
  cases hp : probe st buf (hB buf) with
  | mk h r =>
    cases r with
    | none => exact Or.inl ⟨h, rfl, rfl⟩
    | some kv => exact Or.inr ⟨h, kv, rfl, rfl⟩

/-- `finishCache` with a zero ID does nothing. -/
theorem finishCache_zero (hB : List Nat → Nat) (st : symbolTable)
    (val : List Nat) : finishCache hB st val 0 = (st, 0) := by
  simp [finishCache]

/-- `dbFwd` unfolded at a known store. -/
theorem dbFwd_eq {st : symbolTable} {db : List (List Nat × List Nat)}
    (hdb : st.db = some db) (val : List Nat) :
    dbFwd st val =
      (match kvGet (forwardKey st.dbKeyPfx val) db with
      | some buf => if buf.length = IDSz then (idReadFrom buf).1 else 0
      | none => 0) := by
  unfold dbFwd
  rw [hdb]

/-- `dbFwd` and `dbRev` only read the store and the prefix. -/
theorem dbFwd_congr {st₁ st₂ : symbolTable} (h1 : st₁.db = st₂.db)
    (h2 : st₁.dbKeyPfx = st₂.dbKeyPfx) (val : List Nat) :
    dbFwd st₁ val = dbFwd st₂ val := by
  unfold dbFwd
  rw [h1, h2]

theorem dbRev_congr {st₁ st₂ : symbolTable} (h1 : st₁.db = st₂.db)
    (h2 : st₁.dbKeyPfx = st₂.dbKeyPfx) (i : Nat) :
    dbRev st₁ i = dbRev st₂ i := by
  unfold dbRev
  rw [h1, h2]

/-- The 5 bytes written for an ID parse back to the ID (40-bit IDs). -/
theorem fwdVal_parses (id : Nat) (h : id < 2 ^ 40) :
    (if (idWriteTo id []).length = IDSz then (idReadFrom (idWriteTo id [])).1
      else 0) = id := by
  have hl : (idWriteTo id []).length = IDSz := by simp [idWriteTo, IDSz]
  rw [if_pos hl, idReadFrom_idWriteTo id h]

/-! ## Claim C1 — scenario E (symbol table overwrite) -/

/-- C1, counterexample: on the scenario-E table the three stated outcomes do
not all hold — `GetSymbolID("alpha", false)` does not return 0 (nothing
removed the stale forward binding for `"alpha"`). -/
theorem c1_counterexample :
    ¬ ((LookupID tHash scenarioE 7).2 = betaV ∧
       (GetSymbolID tHash scenarioE alphaV false).2 = 0 ∧
       (GetSymbolID tHash scenarioE betaV false).2 = 7) := by
  decide

/-- C1, amended: after `SetSymbolID("alpha", 7)` then `SetSymbolID("beta", 7)`
on a fresh table, `LookupID(7)` returns `"beta"` and
`GetSymbolID("beta", false)` returns 7, but `GetSymbolID("alpha", false)`
returns 7 as well: the forward binding for `"alpha"` stays in the store and
the value cache, only the reverse binding moved. -/
theorem c1_amended :
    (LookupID tHash scenarioE 7).2 = betaV ∧
    (GetSymbolID tHash scenarioE alphaV false).2 = 7 ∧
    (GetSymbolID tHash scenarioE betaV false).2 = 7 ∧
    dbFwd scenarioE alphaV = 7 := by
  decide

/-! ## Claim C4 — the reassignment row of getsetValueIDPair -/

/-- C4, counterexample: with the forward binding of `"alpha"` at 5, calling
`getsetValueIDPair("alpha", 7, mapID := true)` does not return the existing
ID 5 and does not keep 5 in the forward entry: with `id ≠ 0` and
`mapID = true` the code never reads the existing binding
(table.go:228 guards the lookup with `symID == 0 || !mapID`). -/
theorem c4_counterexample :
    ¬ ((getsetValueIDPair tHash stC4 alphaV 7 true).2 = 5 ∧
       dbFwd (getsetValueIDPair tHash stC4 alphaV 7 true).1 alphaV = 5) := by
  decide

/-- `finishCache` never touches the store, the issuer, or the options. -/
theorem finishCache_admin (hB : List Nat → Nat) (st : symbolTable)
    (val : List Nat) (symID : Nat) :
    (finishCache hB st val symID).1.db = st.db ∧
    (finishCache hB st val symID).1.dbKeyPfx = st.dbKeyPfx ∧
    (finishCache hB st val symID).1.nextID = st.nextID ∧
    (finishCache hB st val symID).1.poolSz = st.poolSz := by
  unfold finishCache
  split
  · have ha := alloc_admin hB st val symID
    exact ⟨ha.1, ha.2.2.1, ha.2.1, ha.2.2.2⟩
  · simp

/-- `getsetValueIDPair` with a non-zero explicit ID and `mapID = true`
(table.go:255-258 with the lookup at line 228 skipped): both directions are
(over)written with `id` itself. -/
theorem getset_set_id (hB : List Nat → Nat) (st : symbolTable)
    (db : List (List Nat × List Nat)) (hdb : st.db = some db)
    (id : Nat) (hid : id ≠ 0) (val : List Nat) :
    getsetValueIDPair hB st val id true =
      finishCache hB { st with db := some (kvSet (reverseKey st.dbKeyPfx id) val
        (kvSet (forwardKey st.dbKeyPfx val) (idWriteTo id []) db)) } val id := by
  unfold getsetValueIDPair
  rw [hdb]
  dsimp only
  rw [if_neg (by simp [hid] : ¬ (id = 0 ∨ (true : Bool) = false))]
  rw [if_neg hid]
  rw [if_pos rfl]
  dsimp only
  rw [if_pos (Or.inl rfl)]
  rw [if_pos rfl]

/-- Observable component facts of the previous lemma. -/
theorem getset_set_id_facts (hB : List Nat → Nat) (st : symbolTable)
    (db : List (List Nat × List Nat)) (hdb : st.db = some db)
    (id : Nat) (hid : id ≠ 0) (val : List Nat) :
    (getsetValueIDPair hB st val id true).2 = id ∧
    (getsetValueIDPair hB st val id true).1.db =
      some (kvSet (reverseKey st.dbKeyPfx id) val
        (kvSet (forwardKey st.dbKeyPfx val) (idWriteTo id []) db)) ∧
    (getsetValueIDPair hB st val id true).1.dbKeyPfx = st.dbKeyPfx := by
  rw [getset_set_id hB st db hdb id hid val]
  have hfa := finishCache_admin hB
    { st with db := some (kvSet (reverseKey st.dbKeyPfx id) val
        (kvSet (forwardKey st.dbKeyPfx val) (idWriteTo id []) db)) } val id
  refine ⟨?_, ?_, ?_⟩
  · simp [finishCache, hid]
  · rw [hfa.1]
  · rw [hfa.2.1]

/-- C4, amended: in `getsetValueIDPair(value, id, mapID)` with `id ≠ 0` and
`mapID = true` the forward lookup is skipped (table.go:228 guards it with
`symID == 0 || !mapID`), so regardless of any existing forward binding the
operation writes the forward entry for `value` to `id` itself, writes the
reverse entry keyed by `id` to `value`, and returns `id` — never the
pre-existing ID. -/
theorem c4_amended (hB : List Nat → Nat) (st : symbolTable)
    (db : List (List Nat × List Nat)) (hdb : st.db = some db)
    (id : Nat) (hid : id ≠ 0) (hlt : id < NB) (val : List Nat) :
    (getsetValueIDPair hB st val id true).2 = id ∧
    dbFwd (getsetValueIDPair hB st val id true).1 val = id ∧
    dbRev (getsetValueIDPair hB st val id true).1 id = some val := by
  have h40 : id < 2 ^ 40 := by
    have hnb : NB < 2 ^ 40 := by norm_num [NB]
    omega
  have hkey : forwardKey st.dbKeyPfx val ≠ reverseKey st.dbKeyPfx id :=
    forwardKey_ne_reverseKey st.dbKeyPfx val id (by simpa [NB] using hlt)
  obtain ⟨hret, hdb', hpfx⟩ := getset_set_id_facts hB st db hdb id hid val
  refine ⟨hret, ?_, ?_⟩
  · unfold dbFwd
    rw [hdb', hpfx]
    dsimp only
    rw [kvGet_kvSet_ne _ _ _ _ hkey, kvGet_kvSet_same]
    exact fwdVal_parses id h40
  · unfold dbRev
    rw [hdb', hpfx]
    dsimp only
    exact kvGet_kvSet_same _ _ _

/-- C4 witness: a concrete instance of the amended row. -/
theorem c4_witness :
    (getsetValueIDPair tHash stC4 alphaV 7 true).2 = 7 ∧
    dbFwd (getsetValueIDPair tHash stC4 alphaV 7 true).1 alphaV = 7 ∧
    dbRev (getsetValueIDPair tHash stC4 alphaV 7 true).1 7 = some alphaV :=
  c4_amended tHash stC4
    [([0, 255, 254, 97, 108, 112, 104, 97], [0, 0, 0, 0, 5]),
     ([0, 0, 0, 0, 0, 5], [97, 108, 112, 104, 97])]
    (by decide) 7 (by decide) (by norm_num [NB]) alphaV

/-! ## Claim C5 — storage key layout -/

/-- C5, counterexample: after `SetSymbolID("alpha", 7)` on a fresh table the
store holds a reverse entry for ID 7 (value `"alpha"`), but not under the
claimed key `[DbKeyPrefix][0xFF][ID]` — it sits at `[DbKeyPrefix][ID]`
(table.go:272-273 puts no `0xFF` discriminator before the ID bytes). -/
theorem c5_counterexample :
    kvGet (0 :: 0xFF :: idWriteTo 7 []) (setAlpha7.db.getD []) = none ∧
    kvGet (reverseKey 0 7) (setAlpha7.db.getD []) = some alphaV ∧
    reverseKey 0 7 = [0, 0, 0, 0, 0, 7] := by
  decide

/-- C5, amended: every store write performed by `getsetValueIDPair` is
either nothing, a forward entry at `[DbKeyPrefix][0xFF][0xFE][value]` whose
stored value is the 5-byte big-endian ID, or that forward write followed by
a reverse entry at `[DbKeyPrefix][ID as 5 big-endian bytes]` (no `0xFF`
discriminator) whose stored value is the raw value bytes; and `LookupID`
reads the reverse index at `[DbKeyPrefix][ID]`. -/
theorem c5_amended (hB : List Nat → Nat) (st : symbolTable)
    (db : List (List Nat × List Nat)) (hdb : st.db = some db)
    (val : List Nat) (symID₀ : Nat) (mapID : Bool) :
    (∃ i,
      (getsetValueIDPair hB st val symID₀ mapID).1.db = some db ∨
      (getsetValueIDPair hB st val symID₀ mapID).1.db =
        some (kvSet (forwardKey st.dbKeyPfx val) (idWriteTo i []) db) ∨
      (getsetValueIDPair hB st val symID₀ mapID).1.db =
        some (kvSet (reverseKey st.dbKeyPfx i) val
          (kvSet (forwardKey st.dbKeyPfx val) (idWriteTo i []) db))) ∧
    (∀ i, i ≠ 0 → cacheGet i st.tokenCache = none →
      kvGet (reverseKey st.dbKeyPfx i) db = none →
      (LookupID hB st i).2 = []) := by
  constructor
  · unfold getsetValueIDPair
    rw [hdb]
    dsimp only
    by_cases h0 : symID₀ = 0
    · subst h0
      rw [if_pos (Or.inl rfl)]
      generalize (match kvGet (forwardKey st.dbKeyPfx val) db with
        | some buf => if buf.length = IDSz then (idReadFrom buf).1 else 0
        | none => 0) = E
      rw [if_pos rfl]
      by_cases hEz : E ≠ 0
      · rw [if_pos hEz]
        dsimp only
        rw [if_neg (by simp : ¬ ((false : Bool) = true ∨ (false : Bool) = true))]
        exact ⟨0, Or.inl (by rw [(finishCache_admin hB st val E).1, hdb])⟩
      · rw [if_neg hEz]
        cases mapID with
        | true =>
          rw [if_pos rfl]
          dsimp only
          rw [if_pos (Or.inl rfl)]
          refine ⟨st.nextID, Or.inr (Or.inr ?_)⟩
          rw [(finishCache_admin hB _ val _).1]; simp
        | false =>
          rw [if_neg (show ¬ ((false : Bool) = true) by simp)]
          dsimp only
          rw [if_neg (by simp : ¬ ((false : Bool) = true ∨ (false : Bool) = true))]
          exact ⟨0, Or.inl (by rw [(finishCache_admin hB st val 0).1, hdb])⟩
    · cases mapID with
      | true =>
        rw [if_neg (by simp [h0] : ¬ (symID₀ = 0 ∨ (true : Bool) = false))]
        rw [if_neg h0]
        rw [if_pos rfl]
        rw [if_pos (Or.inl rfl)]
        refine ⟨symID₀, Or.inr (Or.inr ?_)⟩
        rw [(finishCache_admin hB _ val _).1]; simp
      | false =>
        rw [if_pos (Or.inr rfl)]
        generalize (match kvGet (forwardKey st.dbKeyPfx val) db with
          | some buf => if buf.length = IDSz then (idReadFrom buf).1 else 0
          | none => 0) = E
        rw [if_neg h0]
        by_cases hEz : E = 0
        · rw [if_pos hEz]
          dsimp only
          rw [if_pos (Or.inl rfl)]
          refine ⟨symID₀, Or.inr (Or.inr ?_)⟩
          rw [(finishCache_admin hB _ val _).1]; simp
        · rw [if_neg hEz]
          by_cases hse : symID₀ ≠ E
          · rw [if_pos hse]
            rw [if_neg (by simp : ¬ ((false : Bool) = true))]
            dsimp only
            rw [if_pos (Or.inr rfl)]
            refine ⟨symID₀, Or.inr (Or.inl ?_)⟩
            rw [(finishCache_admin hB _ val _).1]; simp
          · rw [if_neg hse]
            dsimp only
            rw [if_neg (by simp : ¬ ((false : Bool) = true ∨ (false : Bool) = true))]
            exact ⟨0, Or.inl (by
              rw [(finishCache_admin hB st val symID₀).1, hdb])⟩
  · intro i hi hc hnone
    unfold LookupID
    rw [if_neg hi, hc]
    dsimp only
    rw [hdb]
    dsimp only
    rw [hnone]
    simp [bufForEntry, kvEntry.zero]

/-- C5 witness: a concrete instance. -/
theorem c5_witness :
    (∃ i,
      (getsetValueIDPair tHash freshDB alphaV 7 true).1.db = some [] ∨
      (getsetValueIDPair tHash freshDB alphaV 7 true).1.db =
        some (kvSet (forwardKey 0 alphaV) (idWriteTo i []) []) ∨
      (getsetValueIDPair tHash freshDB alphaV 7 true).1.db =
        some (kvSet (reverseKey 0 i) alphaV
          (kvSet (forwardKey 0 alphaV) (idWriteTo i []) []))) ∧
    (∀ i, i ≠ 0 → cacheGet i freshDB.tokenCache = none →
      kvGet (reverseKey 0 i) [] = none →
      (LookupID tHash freshDB i).2 = []) :=
  c5_amended tHash freshDB [] rfl alphaV 7 true

/-! ## Claim C6 — SetSymbolID(v, 0) vs GetSymbolID(v, true) -/

/-- C6, counterexample: on a table with no backing store and `"alpha"`
already interned (ID 1), `GetSymbolID` returns the cached ID 1 and leaves
the state alone, while `SetSymbolID("alpha", 0)` bypasses the cache
fast-path, makes the issuer hand out a fresh ID 2 (table.go:207-210), and
rebinds the caches — different ID and different state. -/
theorem c6_counterexample :
    ¬ ((SetSymbolID tHash st6 alphaV 0).2 =
        (GetSymbolID tHash st6 alphaV true).2 ∧
       (SetSymbolID tHash st6 alphaV 0).1 =
        (GetSymbolID tHash st6 alphaV true).1) := by
  decide

/-- C6, amended: for a table with a backing store, and in states where the
value cache's binding for `v` (when there is one) agrees with the store's
forward binding, `SetSymbolID(v, 0)` returns the same ID and leaves the
table in the same state as `GetSymbolID(v, true)`.  (With no backing store,
or when cache and store disagree on `v`, the two differ.) -/
theorem c6_amended (hB : List Nat → Nat) (st : symbolTable)
    (db : List (List Nat × List Nat)) (hdb : st.db = some db)
    (val : List Nat)
    (hagree : getIDFromCache hB st val = 0 ∨
      dbFwd st val = getIDFromCache hB st val) :
    SetSymbolID hB st val 0 = GetSymbolID hB st val true := by
  unfold SetSymbolID GetSymbolID
  by_cases h0 : getIDFromCache hB st val = 0
  · rw [h0]
    simp
  · have hx : dbFwd st val = getIDFromCache hB st val :=
      hagree.resolve_left h0
    rw [if_pos h0]
    rcases getIDFromCache_cases hB st val with ⟨h, hp, hz⟩ | ⟨h, kv, hp, hv⟩
    · exact absurd hz h0
    · -- cache hit on entry kv with kv.symID = the cached ID
      unfold getsetValueIDPair
      rw [hdb]
      dsimp only
      rw [if_pos (Or.inl rfl)]
      have hE : (match kvGet (forwardKey st.dbKeyPfx val) db with
          | some buf => if buf.length = IDSz then (idReadFrom buf).1 else 0
          | none => 0) = kv.symID := by
        rw [← hv, ← hx, dbFwd_eq hdb]
      rw [hE]
      rw [if_pos rfl]
      have hkz : kv.symID ≠ 0 := hv ▸ h0
      rw [if_pos hkz]
      dsimp only
      rw [if_neg (by simp : ¬ ((false : Bool) = true ∨ (false : Bool) = true))]
      unfold finishCache
      rw [if_pos hkz]
      rw [alloc_found_same hp rfl]
      rw [hv]

/-- C6 witness: a concrete instance of the amended equivalence (fresh
db-backed table, value not yet interned). -/
theorem c6_witness :
    SetSymbolID tHash freshDB alphaV 0 = GetSymbolID tHash freshDB alphaV true :=
  c6_amended tHash freshDB [] (by decide) alphaV (Or.inl (by decide))

/-! ## Claim C7 — symbol ID serialization round-trip -/

/-- C7: for every ID below `2 ^ 40`, `ID.WriteTo` appends exactly the 5
big-endian ID bytes to its argument, and `ID.ReadFrom` on those 5 bytes
reconstructs the ID and returns `IDSz`. -/
theorem c7_id_roundtrip (id : Nat) (io : List Nat) (h : id < 2 ^ 40) :
    (idWriteTo id io).length = io.length + 5 ∧
    idWriteTo id io = io ++ idWriteTo id [] ∧
    idReadFrom (idWriteTo id []) = (id, IDSz) := by
  refine ⟨?_, ?_, idReadFrom_idWriteTo id h⟩
  · simp [idWriteTo]
  · simp [idWriteTo]

/-- C7 witness at a concrete 40-bit ID. -/
theorem c7_witness :
    (idWriteTo 987654321098 [3]).length = [3].length + 5 ∧
    idWriteTo 987654321098 [3] = [3] ++ idWriteTo 987654321098 [] ∧
    idReadFrom (idWriteTo 987654321098 []) = (987654321098, IDSz) :=
  c7_id_roundtrip 987654321098 [3] (by norm_num)

/-! ## Claim C8 — cache-entry bounds -/

/-- C8, counterexample: interning the empty value on a fresh table (no pool
allocated yet) stores an entry with `poolIdx = -1` in both caches
(table.go:153 does not start a pool because `0 + 0 > 0` fails), so the
claimed bounds invariant is violated — `equals` / `bufForEntry` would index
`bufPools[-1]` and panic. -/
theorem c8_counterexample :
    ¬ (∀ p ∈ (allocAndBindToID tHash freshDB [] 1).1.valueCache,
        entryBounds (allocAndBindToID tHash freshDB [] 1).1 p.2) := by
  decide

/-! ## Claim C9 — single-session-slot guard -/

/-- C9: if a lib session is already active, `Call_SessionBegin` returns 0
without starting a host and leaves the state unchanged; when the slot is
empty it starts a host and, when both startup calls succeed, returns the
non-zero handle 12345. -/
theorem c9_single_session_slot (st : LibState) (env : BeginEnv) :
    (st.gLibSession.isSome = true →
      Call_SessionBegin st env = (st, 0, false)) ∧
    (st.gLibSession = none → (Call_SessionBegin st env).2.2 = true) ∧
    (st.gLibSession = none → env.startServiceOK = true →
      env.newSessionOK = true →
      (Call_SessionBegin st env).2.1 = 12345 ∧
      (Call_SessionBegin st env).2.1 ≠ 0) := by
  refine ⟨?_, ?_, ?_⟩
  · intro h
    simp [Call_SessionBegin, h]
  · intro h
    unfold Call_SessionBegin
    rw [if_neg (by simp [h])]
    dsimp only
    split <;> rfl
  · intro h h1 h2
    unfold Call_SessionBegin
    rw [if_neg (by simp [h])]
    dsimp only
    rw [if_pos (by simp [h1, h2])]
    exact ⟨rfl, by norm_num⟩

/-- C9 witness: both sides at concrete states. -/
theorem c9_witness :
    Call_SessionBegin
        { gLibSession := some { inQueue := [], outQueue := [] },
          gLibService := some () }
        { startServiceOK := true, newSessionOK := true } =
      ({ gLibSession := some { inQueue := [], outQueue := [] },
         gLibService := some () }, 0, false) ∧
    (Call_SessionBegin { gLibSession := none, gLibService := none }
        { startServiceOK := true, newSessionOK := true }).2.1 = 12345 := by
  constructor
  · exact (c9_single_session_slot _ _).1 rfl
  · exact ((c9_single_session_slot _ _).2.2 rfl rfl rfl).1

/-! ## Claim C10 — no-session sentinel -/

/-- C10, counterexample: with an active session but a message that fails to
unmarshal, `Call_PushMsg` does not return 0 — the Go code panics
(main.go:84), modelled as `none`. -/
theorem c10_counterexample :
    ¬ ((Call_PushMsg (fun _ => none)
        { gLibSession := some { inQueue := [], outQueue := [] },
          gLibService := some () } [0]).2 = some 0) := by
  decide

/-- C10, amended: with no active session both calls return -1 and change
nothing; with an active session, `Call_PushMsg` enqueues and returns 0
provided the bytes unmarshal (on unmarshal failure it panics instead of
returning), and `Call_WaitOnMsg` dequeues and returns 0. -/
theorem c10_amended (um : List Nat → Option (List Nat)) (st : LibState)
    (msg_pb : List Nat) :
    (st.gLibSession = none →
      Call_PushMsg um st msg_pb = (st, some (-1)) ∧
      Call_WaitOnMsg st = (st, -1, none)) ∧
    (∀ sess, st.gLibSession = some sess →
      (∀ m, um msg_pb = some m →
        (Call_PushMsg um st msg_pb).2 = some 0 ∧
        (Call_PushMsg um st msg_pb).1.gLibSession =
          some { inQueue := sess.inQueue ++ [m], outQueue := sess.outQueue } ∧
        (Call_PushMsg um st msg_pb).1.gLibService = st.gLibService) ∧
      (um msg_pb = none → Call_PushMsg um st msg_pb = (st, none)) ∧
      (Call_WaitOnMsg st).2.1 = 0) := by
  constructor
  · intro h
    constructor
    · unfold Call_PushMsg
      rw [h]
    · unfold Call_WaitOnMsg
      rw [h]
  · intro sess h
    refine ⟨?_, ?_, ?_⟩
    · intro m hm
      unfold Call_PushMsg
      rw [h, hm]
      exact ⟨rfl, rfl, rfl⟩
    · intro hm
      unfold Call_PushMsg
      rw [h, hm]
    · unfold Call_WaitOnMsg
      rw [h]
      dsimp only
      cases hq : sess.outQueue <;> rfl

/-- C10 witness: concrete active and inactive states. -/
theorem c10_witness :
    (Call_PushMsg some { gLibSession := some { inQueue := [], outQueue := [[9]] }, gLibService := some () } [5]).2 = some 0 ∧
    (Call_PushMsg some { gLibSession := some { inQueue := [], outQueue := [[9]] }, gLibService := some () } [5]).1.gLibSession = some { inQueue := [[5]], outQueue := [[9]] } ∧
    Call_PushMsg some { gLibSession := none, gLibService := none } [5] =
      ({ gLibSession := none, gLibService := none }, some (-1)) := by
  refine ⟨?_, ?_, ?_⟩
  · exact (((c10_amended some { gLibSession := some { inQueue := [], outQueue := [[9]] }, gLibService := some () } [5]).2 { inQueue := [], outQueue := [[9]] } rfl).1 [5] rfl).1
  · exact (((c10_amended some { gLibSession := some { inQueue := [], outQueue := [[9]] }, gLibService := some () } [5]).2 { inQueue := [], outQueue := [[9]] } rfl).1 [5] rfl).2.1
  · exact ((c10_amended some { gLibSession := none, gLibService := none } [5]).1 rfl).1

/-! ## List lemmas for the pool arena -/

theorem getD_append_lt (l l' : List α) (i : Nat) (d : α) (h : i < l.length) :
    (l ++ l').getD i d = l.getD i d := by
  rw [List.getD_eq_getElem?_getD, List.getD_eq_getElem?_getD,
    List.getElem?_append]
  rw [if_pos h]

theorem getD_concat_len (l : List α) (p : α) (d : α) :
    (l ++ [p]).getD l.length d = p := by
  rw [List.getD_eq_getElem?_getD, List.getElem?_concat_length]
  rfl

theorem getD_set_self (l : List α) (i : Nat) (x d : α) (h : i < l.length) :
    (l.set i x).getD i d = x := by
  rw [List.getD_eq_getElem?_getD, List.getElem?_set_self h]
  rfl

theorem getD_set_ne (l : List α) (i j : Nat) (x d : α) (h : i ≠ j) :
    (l.set i x).getD j d = l.getD j d := by
  rw [List.getD_eq_getElem?_getD, List.getD_eq_getElem?_getD,
    List.getElem?_set_ne h]

theorem set_concat_len (l : List α) (p x : α) :
    (l ++ [p]).set l.length x = l ++ [x] := by
  induction l with
  | nil => rfl
  | cons a t ih => simp [List.set, ih]

/-- Writing `buf` at `ofs` keeps the pool length. -/
theorem poolWrite_length (pool buf : List Nat) (ofs : Nat)
    (h : ofs + buf.length ≤ pool.length) :
    (pool.take ofs ++ buf ++ pool.drop (ofs + buf.length)).length =
      pool.length := by
  simp [List.length_take, List.length_drop,
    Nat.min_eq_left (show ofs ≤ pool.length by omega)]
  omega

/-- Reading back the freshly written bytes. -/
theorem poolWrite_read (pool buf : List Nat) (ofs : Nat)
    (h : ofs ≤ pool.length) :
    ((pool.take ofs ++ buf ++ pool.drop (ofs + buf.length)).drop ofs).take
      buf.length = buf := by
  have hl : (pool.take ofs).length = ofs := by
    simp [List.length_take]
    omega
  have hd := List.drop_left (pool.take ofs)
    (buf ++ pool.drop (ofs + buf.length))
  rw [hl] at hd
  rw [List.append_assoc, hd, List.take_left]

/-- Positions wholly below the write offset are untouched. -/
theorem poolWrite_pre (pool buf : List Nat) (ofs a b : Nat)
    (hab : a + b ≤ ofs) (h : ofs ≤ pool.length) :
    ((pool.take ofs ++ buf ++ pool.drop (ofs + buf.length)).drop a).take b =
      (pool.drop a).take b := by
  have hl : (pool.take ofs).length = ofs := by
    simp [List.length_take]
    omega
  rw [List.append_assoc]
  rw [List.drop_append_of_le_length (by omega)]
  rw [List.take_append_of_le_length (by
    simp [List.length_drop, hl]
    omega)]
  rw [List.drop_take]
  rw [List.take_take]
  rw [Nat.min_eq_left (by omega)]

/-- `equals` only reads the entry's segment and length. -/
theorem equals_congr {st₁ st₂ : symbolTable} {kv : kvEntry}
    (h : poolSegment st₁ kv = poolSegment st₂ kv) (buf : List Nat) :
    equals st₁ kv buf = equals st₂ kv buf := by
  unfold equals
  rw [h]

/-! ## More probe lemmas -/

theorem probeAux_chain {st : symbolTable} {buf : List Nat} :
    ∀ {fuel hash h : Nat} {r : Option kvEntry},
      probeAux st buf fuel hash = (h, r) →
      ∀ i, hash ≤ i → i < h →
        ∃ kv, cacheGet i st.valueCache = some kv ∧ equals st kv buf = false := by
  intro fuel
  induction fuel with
  | zero =>
    intro hash h r hp i hi hih
    simp [probeAux] at hp
    omega
  | succ f ih =>
    intro hash h r hp i hi hih
    rw [probeAux] at hp
    cases hc : cacheGet hash st.valueCache with
    | none =>
      rw [hc] at hp
      simp at hp
      omega
    | some kv' =>
      rw [hc] at hp
      by_cases he : equals st kv' buf
      · simp [he] at hp
        omega
      · simp [he] at hp
        by_cases hii : hash = i
        · subst hii
          exact ⟨kv', hc, by simp [he]⟩
        · exact ih hp i (by omega) hih
theorem probe_chain {st : symbolTable} {buf : List Nat} {hash h : Nat}
    {r : Option kvEntry} (hp : probe st buf hash = (h, r)) :
    ∀ i, hash ≤ i → i < h →
      ∃ kv, cacheGet i st.valueCache = some kv ∧ equals st kv buf = false :=
  probeAux_chain hp

/-- A probe skips over a run of occupied, non-equal slots. -/
theorem probe_of_run (st : symbolTable) (buf : List Nat) :
    ∀ (d a : Nat),
      (∀ i, a ≤ i → i < a + d →
        ∃ kv, cacheGet i st.valueCache = some kv ∧ equals st kv buf = false) →
      probe st buf a = probe st buf (a + d) := by
  intro d
  induction d with
  | zero => intro a _; rfl
  | succ f ih =>
    intro a hrun
    obtain ⟨kv, hc, he⟩ := hrun a (le_refl a) (by omega)
    rw [probe_eq st buf a, hc]
    dsimp only
    rw [he]
    rw [if_neg (by simp)]
    have := ih (a + 1) (fun i hi hih => hrun i (by omega) (by omega))
    rw [this]
    congr 1
    omega

/-- If every occupied slot from `hash` on fails `equals`, the probe misses. -/
theorem probe_all_false {st : symbolTable} {buf : List Nat} {hash : Nat}
    (hall : ∀ i kv, hash ≤ i → cacheGet i st.valueCache = some kv →
      equals st kv buf = false) :
    (probe st buf hash).2 = none := by
  unfold probe
  generalize keyMax st.valueCache + 1 - hash = fuel
  induction fuel generalizing hash with
  | zero => simp [probeAux]
  | succ f ih =>
    rw [probeAux]
    cases hc : cacheGet hash st.valueCache with
    | none => simp
    | some kv =>
      dsimp only
      rw [hall hash kv (le_refl _) hc]
      rw [if_neg (by simp)]
      exact ih (fun i kv' hi hc' => hall i kv' (by omega) hc')
/-! ## growPool and writeEntry facts -/

/-- After `growPool`, the current pool exists and has room for `len` more
bytes; caches, store and issuer are untouched; existing pools and the
committed regions of existing entries are preserved. -/
theorem growPool_spec (st : symbolTable) (len : Nat)
    (hidx : st.curBufPoolIdx = (st.bufPools.length : Int) - 1)
    (hsz : st.curBufPoolSz ≤
      (st.bufPools.getD (st.bufPools.length - 1) []).length)
    (hne : len ≠ 0 ∨ st.bufPools ≠ []) :
    (growPool st len).curBufPoolIdx =
      ((growPool st len).bufPools.length : Int) - 1 ∧
    0 ≤ (growPool st len).curBufPoolIdx ∧
    (growPool st len).curBufPoolIdx.toNat =
      (growPool st len).bufPools.length - 1 ∧
    1 ≤ (growPool st len).bufPools.length ∧
    (growPool st len).curBufPoolSz + len ≤
      ((growPool st len).bufPools.getD
        (growPool st len).curBufPoolIdx.toNat []).length ∧
    (growPool st len).valueCache = st.valueCache ∧
    (growPool st len).tokenCache = st.tokenCache ∧
    (growPool st len).db = st.db ∧
    (growPool st len).nextID = st.nextID ∧
    (growPool st len).dbKeyPfx = st.dbKeyPfx ∧
    (∀ kv, entryOK st kv →
      poolSegment (growPool st len) kv = poolSegment st kv ∧
      entryOK (growPool st len) kv ∧
      (kv.poolIdx.toNat = (growPool st len).curBufPoolIdx.toNat →
        kv.poolOfs + kv.len ≤ (growPool st len).curBufPoolSz)) := by
  by_cases hg : st.curBufPoolSz + len >
      (st.bufPools.getD st.curBufPoolIdx.toNat []).length
  · -- a fresh pool is appended
    have hgrow : growPool st len = { st with
        bufPools := st.bufPools ++ [List.replicate (max st.poolSz len) 0],
        curBufPoolSz := 0,
        curBufPoolIdx := st.curBufPoolIdx + 1 } := by
      unfold growPool
      rw [if_pos hg]
    rw [hgrow]
    set n := st.bufPools.length with hn
    have hlen : (st.bufPools ++
        [List.replicate (max st.poolSz len) 0]).length = n + 1 := by
      simp [hn]
    have hidx1 : st.curBufPoolIdx + 1 = (n : Int) := by
      rw [hidx]; ring
    have htn : (st.curBufPoolIdx + 1).toNat = n := by omega
    have hlast : (st.bufPools ++
        [List.replicate (max st.poolSz len) 0]).getD n [] =
        List.replicate (max st.poolSz len) 0 := getD_concat_len _ _ _
    refine ⟨?_, ?_, ?_, ?_, ?_, rfl, rfl, rfl, rfl, rfl, ?_⟩
    · dsimp only
      rw [hlen, hidx1]
      push_cast
      ring
    · dsimp only
      omega
    · dsimp only
      rw [hlen, htn]
      omega
    · dsimp only
      rw [hlen]
      omega
    · dsimp only
      rw [htn, hlast]
      simp
    · intro kv hOK
      obtain ⟨hs0, hp0, hpl, hcm⟩ := hOK
      have hklt : kv.poolIdx.toNat < n := hpl
      have hgetD : (st.bufPools ++
          [List.replicate (max st.poolSz len) 0]).getD kv.poolIdx.toNat [] =
          st.bufPools.getD kv.poolIdx.toNat [] := getD_append_lt _ _ _ _ hklt
      refine ⟨?_, ⟨hs0, hp0, ?_, ?_⟩, ?_⟩
      · unfold poolSegment
        dsimp only
        rw [hgetD]
      · dsimp only
        rw [hlen]
        omega
      · -- committed region only grows
        unfold committedLen at hcm ⊢
        dsimp only
        rw [hlen, hgetD]
        rw [if_neg (by omega)]
        by_cases hil : kv.poolIdx.toNat + 1 = n
        · rw [if_pos hil] at hcm
          have : kv.poolIdx.toNat = n - 1 := by omega
          rw [this]
          calc kv.poolOfs + kv.len ≤ st.curBufPoolSz := hcm
            _ ≤ (st.bufPools.getD (n - 1) []).length := hsz
        · rw [if_neg hil] at hcm
          exact hcm
      · intro habs
        dsimp only at habs
        rw [htn] at habs
        omega
  · -- the current pool already has room
    have hgrow : growPool st len = st := by
      unfold growPool
      rw [if_neg hg]
    rw [hgrow]
    push_neg at hg
    have hnnil : st.bufPools ≠ [] := by
      rcases hne with h | h
      · intro hnil
        rw [hnil] at hg
        simp [List.getD] at hg
        omega
      · exact h
    have hn1 : 1 ≤ st.bufPools.length := by
      cases hp : st.bufPools with
      | nil => exact absurd hp hnnil
      | cons a t => simp
    have htn : st.curBufPoolIdx.toNat = st.bufPools.length - 1 := by omega
    refine ⟨hidx, by omega, htn, hn1, ?_, rfl, rfl, rfl, rfl, rfl, ?_⟩
    · rw [htn]
      rw [htn] at hg
      exact hg
    · intro kv hOK
      refine ⟨rfl, hOK, ?_⟩
      intro hkl
      obtain ⟨hs0, hp0, hpl, hcm⟩ := hOK
      unfold committedLen at hcm
      rw [htn] at hkl
      rw [hkl] at hcm
      rw [if_pos (by omega)] at hcm
      exact hcm
/-- The entry written by `writeEntry` reads back as `buf`. -/
theorem writeEntry_seg_new (g : symbolTable) (hsh : Nat) (buf : List Nat)
    (bindID : Nat) (hL : g.curBufPoolIdx.toNat < g.bufPools.length)
    (hspace : g.curBufPoolSz + buf.length ≤
      (g.bufPools.getD g.curBufPoolIdx.toNat []).length) :
    poolSegment (writeEntry g hsh buf bindID).1
      (writeEntry g hsh buf bindID).2 = buf := by
  unfold writeEntry poolSegment
  dsimp only
  rw [getD_set_self _ _ _ _ hL]
  exact poolWrite_read _ buf _ (by omega)

/-- Entries outside the written region keep their bytes. -/
theorem writeEntry_seg_old (g : symbolTable) (hsh : Nat) (buf : List Nat)
    (bindID : Nat) (kv : kvEntry)
    (hL : g.curBufPoolIdx.toNat < g.bufPools.length)
    (hspace : g.curBufPoolSz ≤
      (g.bufPools.getD g.curBufPoolIdx.toNat []).length)
    (hkv : kv.poolIdx.toNat ≠ g.curBufPoolIdx.toNat ∨
      kv.poolOfs + kv.len ≤ g.curBufPoolSz) :
    poolSegment (writeEntry g hsh buf bindID).1 kv = poolSegment g kv := by
  unfold writeEntry poolSegment
  dsimp only
  rcases hkv with h | h
  · rw [getD_set_ne _ _ _ _ _ (fun e => h e.symm)]
  · by_cases hi : kv.poolIdx.toNat = g.curBufPoolIdx.toNat
    · rw [hi, getD_set_self _ _ _ _ hL]
      exact poolWrite_pre _ buf _ _ _ h hspace
    · rw [getD_set_ne _ _ _ _ _ (fun e => hi e.symm)]

/-- `writeEntry` preserves every pool's length. -/
theorem writeEntry_pool_len (g : symbolTable) (hsh : Nat) (buf : List Nat)
    (bindID : Nat) (hL : g.curBufPoolIdx.toNat < g.bufPools.length)
    (hspace : g.curBufPoolSz + buf.length ≤
      (g.bufPools.getD g.curBufPoolIdx.toNat []).length) :
    ∀ i, ((writeEntry g hsh buf bindID).1.bufPools.getD i []).length =
      (g.bufPools.getD i []).length := by
  intro i
  unfold writeEntry
  dsimp only
  by_cases hi : i = g.curBufPoolIdx.toNat
  · rw [hi, getD_set_self _ _ _ _ hL]
    exact poolWrite_length _ buf _ hspace
  · rw [getD_set_ne _ _ _ _ _ (fun e => hi e.symm)]
/-- Full specification of the write path of `allocAndBindToID`. -/
theorem bindNew_spec (st : symbolTable) (hsh : Nat) (buf : List Nat)
    (bindID : Nat)
    (hidx : st.curBufPoolIdx = (st.bufPools.length : Int) - 1)
    (hsz : st.curBufPoolSz ≤
      (st.bufPools.getD (st.bufPools.length - 1) []).length)
    (hne : buf ≠ [] ∨ st.bufPools ≠ []) :
    (bindNew st hsh buf bindID).1.valueCache =
      cacheSet hsh (bindNew st hsh buf bindID).2 st.valueCache ∧
    (bindNew st hsh buf bindID).1.tokenCache =
      cacheSet bindID (bindNew st hsh buf bindID).2 st.tokenCache ∧
    (bindNew st hsh buf bindID).2.symID = bindID ∧
    (bindNew st hsh buf bindID).2.len = buf.length ∧
    poolSegment (bindNew st hsh buf bindID).1 (bindNew st hsh buf bindID).2 =
      buf ∧
    (∀ kv, entryOK st kv →
      poolSegment (bindNew st hsh buf bindID).1 kv = poolSegment st kv ∧
      entryOK (bindNew st hsh buf bindID).1 kv) ∧
    (0 ≤ (bindNew st hsh buf bindID).2.poolIdx ∧
      (bindNew st hsh buf bindID).2.poolIdx.toNat <
        (bindNew st hsh buf bindID).1.bufPools.length ∧
      (bindNew st hsh buf bindID).2.poolOfs + (bindNew st hsh buf bindID).2.len ≤
        committedLen (bindNew st hsh buf bindID).1
          (bindNew st hsh buf bindID).2.poolIdx.toNat) ∧
    (bindNew st hsh buf bindID).1.curBufPoolIdx =
      ((bindNew st hsh buf bindID).1.bufPools.length : Int) - 1 ∧
    (bindNew st hsh buf bindID).1.curBufPoolSz ≤
      ((bindNew st hsh buf bindID).1.bufPools.getD
        ((bindNew st hsh buf bindID).1.bufPools.length - 1) []).length := by
  have hne' : buf.length ≠ 0 ∨ st.bufPools ≠ [] := by
    rcases hne with h | h
    · exact Or.inl (by simpa using h)
    · exact Or.inr h
  obtain ⟨gidx, gpos, gtn, glen1, gspace, gvc, gtc, gdb, gnid, gpfx, gok⟩ :=
    growPool_spec st buf.length hidx hsz hne'
  set g := growPool st buf.length with hg
  have hL : g.curBufPoolIdx.toNat < g.bufPools.length := by omega
  have hplen : ∀ i,
      ((bindNew st hsh buf bindID).1.bufPools.getD i []).length =
        (g.bufPools.getD i []).length :=
    writeEntry_pool_len g hsh buf bindID hL gspace
  have hwlen : (bindNew st hsh buf bindID).1.bufPools.length =
      g.bufPools.length := by
    show ((g.bufPools.set g.curBufPoolIdx.toNat _).length) = _
    exact List.length_set _ _ _
  have hwidx : (bindNew st hsh buf bindID).1.curBufPoolIdx =
      g.curBufPoolIdx := rfl
  have hwsz : (bindNew st hsh buf bindID).1.curBufPoolSz =
      g.curBufPoolSz + buf.length := rfl
  have hkidx : (bindNew st hsh buf bindID).2.poolIdx = g.curBufPoolIdx := rfl
  have hkofs : (bindNew st hsh buf bindID).2.poolOfs = g.curBufPoolSz := rfl
  have hklen : (bindNew st hsh buf bindID).2.len = buf.length := rfl
  refine ⟨?_, ?_, rfl, rfl, ?_, ?_, ?_, ?_, ?_⟩
  · show cacheSet hsh _ g.valueCache = _
    rw [gvc]
    rfl
  · show cacheSet bindID _ g.tokenCache = _
    rw [gtc]
    rfl
  · exact writeEntry_seg_new g hsh buf bindID hL gspace
  · intro kv hOK
    obtain ⟨hseg, hOKg, hregion⟩ := gok kv hOK
    obtain ⟨hs0, hp0, hpl, hcm⟩ := hOKg
    have hdisj : kv.poolIdx.toNat ≠ g.curBufPoolIdx.toNat ∨
        kv.poolOfs + kv.len ≤ g.curBufPoolSz := by
      by_cases hc : kv.poolIdx.toNat = g.curBufPoolIdx.toNat
      · exact Or.inr (hregion hc)
      · exact Or.inl hc
    constructor
    · have hw := writeEntry_seg_old g hsh buf bindID kv hL (by omega) hdisj
      calc poolSegment (bindNew st hsh buf bindID).1 kv
          = poolSegment g kv := hw
        _ = poolSegment st kv := hseg
    · refine ⟨hs0, hp0, by omega, ?_⟩
      unfold committedLen at hcm ⊢
      rw [hwlen, hwsz]
      by_cases hil : kv.poolIdx.toNat + 1 = g.bufPools.length
      · rw [if_pos hil] at hcm ⊢
        have : kv.poolIdx.toNat = g.curBufPoolIdx.toNat := by omega
        have h2 := hregion this
        omega
      · rw [if_neg hil] at hcm ⊢
        rw [hplen]
        exact hcm
  · refine ⟨by rw [hkidx]; omega, by rw [hkidx, hwlen]; omega, ?_⟩
    rw [hkidx, hkofs, hklen]
    unfold committedLen
    rw [hwlen, hwsz]
    rw [if_pos (by omega)]
  · rw [hwidx, hwlen]
    omega
  · rw [hwsz, hwlen]
    have : g.bufPools.length - 1 = g.curBufPoolIdx.toNat := by omega
    rw [this, hplen]
    exact gspace
theorem equals_true_of (st : symbolTable) (kv : kvEntry) (buf : List Nat)
    (h1 : poolSegment st kv = buf) (h2 : kv.len = buf.length) :
    equals st kv buf = true := by
  unfold equals
  rw [h1, h2]
  simp

theorem equals_false_of (st : symbolTable) (kv : kvEntry) (buf : List Nat)
    (h1 : poolSegment st kv ≠ buf) : equals st kv buf = false := by
  unfold equals
  simp [h1]

theorem equals_seg {st : symbolTable} {kv : kvEntry} {buf : List Nat}
    (h : equals st kv buf = true) :
    poolSegment st kv = buf ∧ kv.len = buf.length := by
  unfold equals at h
  simp at h
  exact ⟨h.2, h.1.symm⟩

theorem getID_of_probe {hB : List Nat → Nat} {st : symbolTable}
    {buf : List Nat} {h : Nat} {kv : kvEntry}
    (hp : probe st buf (hB buf) = (h, some kv)) :
    getIDFromCache hB st buf = kv.symID := by
  unfold getIDFromCache
  rw [hp]

theorem getID_of_probe_none {hB : List Nat → Nat} {st : symbolTable}
    {buf : List Nat} (hp : (probe st buf (hB buf)).2 = none) :
    getIDFromCache hB st buf = 0 := by
  unfold getIDFromCache
  cases hq : probe st buf (hB buf) with
  | mk a r =>
    rw [hq] at hp
    dsimp at hp
    rw [hp]

/-- Full specification of `allocAndBindToID` inserting a fresh binding at
the empty slot `hsh` the probe settled on. -/
theorem alloc_spec (hB : List Nat → Nat) (st : symbolTable) (buf : List Nat)
    (bindID : Nat) (hG : GoodPools hB st)
    (hbid : bindID ≠ 0)
    (hne : buf ≠ [] ∨ st.bufPools ≠ [])
    {hsh : Nat} (hp : probe st buf (hB buf) = (hsh, none)) :
    (allocAndBindToID hB st buf bindID).1.valueCache =
      cacheSet hsh (allocAndBindToID hB st buf bindID).2 st.valueCache ∧
    (allocAndBindToID hB st buf bindID).1.tokenCache =
      cacheSet bindID (allocAndBindToID hB st buf bindID).2 st.tokenCache ∧
    (allocAndBindToID hB st buf bindID).2.symID = bindID ∧
    poolSegment (allocAndBindToID hB st buf bindID).1
      (allocAndBindToID hB st buf bindID).2 = buf ∧
    (∀ kv, entryOK st kv →
      poolSegment (allocAndBindToID hB st buf bindID).1 kv =
        poolSegment st kv) ∧
    GoodPools hB (allocAndBindToID hB st buf bindID).1 ∧
    entryOK (allocAndBindToID hB st buf bindID).1
      (allocAndBindToID hB st buf bindID).2 ∧
    getIDFromCache hB (allocAndBindToID hB st buf bindID).1 buf = bindID ∧
    (∀ u, u ≠ buf →
      getIDFromCache hB (allocAndBindToID hB st buf bindID).1 u =
        getIDFromCache hB st u) := by
  have halloc : allocAndBindToID hB st buf bindID =
      bindNew st hsh buf bindID := by
    unfold allocAndBindToID
    rw [hp]
  obtain ⟨hvc, htc, hsym, hlen, hsegN, hold, hboundsN, hidx1, hsz1⟩ :=
    bindNew_spec st hsh buf bindID hG.idx_last hG.sz_le hne
  rw [halloc]
  obtain ⟨hempty, hble⟩ := probe_none hp
  set r := bindNew st hsh buf bindID with hr
  have hOKn : entryOK r.1 r.2 := ⟨hsym ▸ hbid, hboundsN⟩
  have holdseg : ∀ kv, entryOK st kv →
      poolSegment r.1 kv = poolSegment st kv :=
    fun kv h => (hold kv h).1
  have holdOK : ∀ kv, entryOK st kv → entryOK r.1 kv :=
    fun kv h => (hold kv h).2
  have hreadv : ∀ i, i ≠ hsh →
      cacheGet i r.1.valueCache = cacheGet i st.valueCache := by
    intro i hi
    rw [hvc]
    exact cacheGet_cacheSet_ne _ _ _ _ hi
  have hreadv0 : cacheGet hsh r.1.valueCache = some r.2 := by
    rw [hvc]
    exact cacheGet_cacheSet_same _ _ _
  have hequals : ∀ i kv u, cacheGet i st.valueCache = some kv →
      equals r.1 kv u = equals st kv u := by
    intro i kv u hc
    exact equals_congr (holdseg kv (hG.vc_ok _ (cacheGet_mem hc))) u
  have hstep2 : probe r.1 buf hsh = (hsh, some r.2) := by
    rw [probe_eq, hreadv0]
    dsimp only
    rw [equals_true_of r.1 r.2 buf hsegN hlen]
    rw [if_pos rfl]
  have hstep1 : probe r.1 buf (hB buf) = probe r.1 buf hsh := by
    have h1 := probe_of_run r.1 buf (hsh - hB buf) (hB buf) ?_
    · rw [show hB buf + (hsh - hB buf) = hsh by omega] at h1
      exact h1
    · intro i hi hlt
      have hlt' : i < hsh := by omega
      obtain ⟨kv, hc, he⟩ := probe_chain hp i hi hlt'
      have hnehsh : i ≠ hsh := by omega
      refine ⟨kv, by rw [hreadv i hnehsh]; exact hc, ?_⟩
      rw [hequals i kv buf hc]
      exact he
  have hgetID1 : getIDFromCache hB r.1 buf = bindID := by
    rw [getID_of_probe (hstep1.trans hstep2)]
    exact hsym
  have hGP : GoodPools hB r.1 := by
    refine ⟨hidx1, hsz1, ?_, ?_, ?_⟩
    · intro p hp'
      rw [hvc] at hp'
      rcases mem_cacheSet hp' with he | hm
      · rw [he]
        exact hOKn
      · exact holdOK _ (hG.vc_ok p hm)
    · intro p hp'
      rw [htc] at hp'
      rcases mem_cacheSet hp' with he | hm
      · rw [he]
        exact ⟨hOKn, hsym⟩
      · obtain ⟨hok, hkey⟩ := hG.tc_ok p hm
        exact ⟨holdOK _ hok, hkey⟩
    · intro h kv hc
      by_cases hh : h = hsh
      · subst hh
        rw [hreadv0] at hc
        injection hc with hc
        subst hc
        rw [hsegN]
        refine ⟨hble, ?_⟩
        intro i hi hih
        by_cases hih' : i = h
        · subst hih'
          rw [hreadv0]
          rfl
        · have hilt : i < h := by omega
          obtain ⟨kv2, hc2, _⟩ := probe_chain hp i hi hilt
          rw [hreadv i hih', hc2]
          rfl
      · rw [hreadv h hh] at hc
        have hOKold := hG.vc_ok _ (cacheGet_mem hc)
        rw [holdseg kv hOKold]
        obtain ⟨hhome, hrun0⟩ := hG.chain h kv hc
        refine ⟨hhome, ?_⟩
        intro i hi hih
        by_cases hih' : i = hsh
        · subst hih'
          rw [hreadv0]
          rfl
        · rw [hreadv i hih']
          exact hrun0 i hi hih
  refine ⟨hvc, htc, hsym, hsegN, holdseg, hGP, hOKn, hgetID1, ?_⟩
  intro u hu
  rcases getIDFromCache_cases hB st u with ⟨hu0, hpu, hz⟩ |
    ⟨hu0, kvU, hpu, hv⟩
  · rw [hz]
    apply getID_of_probe_none
    apply probe_all_false
    intro i kv hi hc
    obtain ⟨hemptyU, hbleU⟩ := probe_none hpu
    by_cases hih : i = hsh
    · subst hih
      rw [hreadv0] at hc
      injection hc with hc
      subst hc
      apply equals_false_of
      rw [hsegN]
      exact fun e => hu e.symm
    · rw [hreadv i hih] at hc
      rw [hequals i kv u hc]
      by_contra hcon
      have htrue : equals st kv u = true := by
        revert hcon
        cases equals st kv u <;> simp
      obtain ⟨hsegu, hlenu⟩ := equals_seg htrue
      obtain ⟨hhome, hrun0⟩ := hG.chain i kv hc
      rw [hsegu] at hhome hrun0
      by_cases hcase : i < hu0
      · obtain ⟨kv2, hc2, he2⟩ := probe_chain hpu i hi hcase
        rw [hc2] at hc
        injection hc with hc
        subst hc
        rw [htrue] at he2
        simp at he2
      · have hsome := hrun0 hu0 hbleU (by omega)
        rw [hemptyU] at hsome
        simp at hsome
  · rw [hv]
    obtain ⟨hcu, heu, hbleU⟩ := probe_found hpu
    have hne1 : ∀ i, i ≤ hu0 → cacheGet i st.valueCache ≠ none → i ≠ hsh := by
      intro i _ hocc he
      subst he
      exact hocc hempty
    have hstepU2 : probe r.1 u hu0 = (hu0, some kvU) := by
      have hnu : hu0 ≠ hsh := hne1 hu0 (le_refl _) (by rw [hcu]; simp)
      rw [probe_eq, hreadv hu0 hnu, hcu]
      dsimp only
      rw [hequals hu0 kvU u hcu, heu]
      rw [if_pos rfl]
    have hstepU1 : probe r.1 u (hB u) = probe r.1 u hu0 := by
      have h1 := probe_of_run r.1 u (hu0 - hB u) (hB u) ?_
      · rw [show hB u + (hu0 - hB u) = hu0 by omega] at h1
        exact h1
      · intro i hi hlt
        have hlt' : i < hu0 := by omega
        obtain ⟨kv, hc, he⟩ := probe_chain hpu i hi hlt'
        have hnehsh : i ≠ hsh := hne1 i (by omega) (by rw [hc]; simp)
        refine ⟨kv, by rw [hreadv i hnehsh]; exact hc, ?_⟩
        rw [hequals i kv u hc]
        exact he
    rw [getID_of_probe (hstepU1.trans hstepU2)]
/-- Committed regions lie inside their pool. -/
theorem committedLen_le (st : symbolTable) (i : Nat)
    (hsz : st.curBufPoolSz ≤
      (st.bufPools.getD (st.bufPools.length - 1) []).length) :
    committedLen st i ≤ (st.bufPools.getD i []).length := by
  unfold committedLen
  by_cases hc : i + 1 = st.bufPools.length
  · rw [if_pos hc]
    have he : st.bufPools.length - 1 = i := by omega
    rw [← he]
    exact hsz
  · rw [if_neg hc]

theorem entryOK_entryBounds (st : symbolTable) (kv : kvEntry)
    (hsz : st.curBufPoolSz ≤
      (st.bufPools.getD (st.bufPools.length - 1) []).length)
    (h : entryOK st kv) : entryBounds st kv := by
  obtain ⟨h0, h1, h2, h3⟩ := h
  exact ⟨h1, h2, le_trans h3 (committedLen_le st _ hsz)⟩

/-- The write path keeps every stored entry inside its pool. -/
theorem bindNew_bounds (st : symbolTable) (hsh : Nat) (buf : List Nat)
    (bindID : Nat)
    (hidx : st.curBufPoolIdx = (st.bufPools.length : Int) - 1)
    (hsz : st.curBufPoolSz ≤
      (st.bufPools.getD (st.bufPools.length - 1) []).length)
    (hne : buf ≠ [] ∨ st.bufPools ≠ [])
    (hvcB : ∀ p ∈ st.valueCache, entryOK st p.2)
    (htcB : ∀ p ∈ st.tokenCache, entryOK st p.2) :
    (∀ p ∈ (bindNew st hsh buf bindID).1.valueCache,
      entryBounds (bindNew st hsh buf bindID).1 p.2) ∧
    (∀ p ∈ (bindNew st hsh buf bindID).1.tokenCache,
      entryBounds (bindNew st hsh buf bindID).1 p.2) := by
  obtain ⟨hvc, htc, hsym, hlen, hsegN, hold, hboundsN, hidx1, hsz1⟩ :=
    bindNew_spec st hsh buf bindID hidx hsz hne
  have hnew : entryBounds (bindNew st hsh buf bindID).1
      (bindNew st hsh buf bindID).2 :=
    ⟨hboundsN.1, hboundsN.2.1,
      le_trans hboundsN.2.2 (committedLen_le _ _ hsz1)⟩
  have holdB : ∀ kv, entryOK st kv →
      entryBounds (bindNew st hsh buf bindID).1 kv := by
    intro kv h
    exact entryOK_entryBounds _ _ hsz1 (hold kv h).2
  constructor
  · intro p hp
    rw [hvc] at hp
    rcases mem_cacheSet hp with he | hm
    · rw [he]
      exact hnew
    · exact holdB _ (hvcB p hm)
  · intro p hp
    rw [htc] at hp
    rcases mem_cacheSet hp with he | hm
    · rw [he]
      exact hnew
    · exact holdB _ (htcB p hm)

/-- C8, amended: provided the buffer being interned is non-empty or some
pool already exists (and the arena metadata and existing entries are sound),
every entry `allocAndBindToID` leaves in either cache has `poolIdx` naming
an existing pool and `poolOfs + len` within that pool's length, so `equals`
and `bufForEntry` never index a pool out of bounds.  (Interning an empty
value before any pool exists violates this — see the counterexample.) -/
theorem c8_amended (hB : List Nat → Nat) (st : symbolTable) (buf : List Nat)
    (bindID : Nat)
    (hidx : st.curBufPoolIdx = (st.bufPools.length : Int) - 1)
    (hsz : st.curBufPoolSz ≤
      (st.bufPools.getD (st.bufPools.length - 1) []).length)
    (hne : buf ≠ [] ∨ st.bufPools ≠ [])
    (hvcB : ∀ p ∈ st.valueCache, entryOK st p.2)
    (htcB : ∀ p ∈ st.tokenCache, entryOK st p.2) :
    (∀ p ∈ (allocAndBindToID hB st buf bindID).1.valueCache,
      entryBounds (allocAndBindToID hB st buf bindID).1 p.2) ∧
    (∀ p ∈ (allocAndBindToID hB st buf bindID).1.tokenCache,
      entryBounds (allocAndBindToID hB st buf bindID).1 p.2) := by
  unfold allocAndBindToID
  cases hq : probe st buf (hB buf) with
  | mk hsh rr =>
    cases rr with
    | none => exact bindNew_bounds st hsh buf bindID hidx hsz hne hvcB htcB
    | some kv =>
      by_cases hkv : kv.symID = bindID
      · simp only [hkv, if_pos rfl]
        constructor
        · intro p hp
          exact entryOK_entryBounds _ _ hsz (hvcB p hp)
        · intro p hp
          exact entryOK_entryBounds _ _ hsz (htcB p hp)
      · simp only [hkv, if_false]
        exact bindNew_bounds st hsh buf bindID hidx hsz hne hvcB htcB

/-- C8 witness: a concrete in-bounds allocation on the fresh table. -/
theorem c8_witness :
    (∀ p ∈ (allocAndBindToID tHash freshDB alphaV 3).1.valueCache,
      entryBounds (allocAndBindToID tHash freshDB alphaV 3).1 p.2) ∧
    (∀ p ∈ (allocAndBindToID tHash freshDB alphaV 3).1.tokenCache,
      entryBounds (allocAndBindToID tHash freshDB alphaV 3).1 p.2) :=
  c8_amended tHash freshDB alphaV 3 (by decide) (by decide)
    (Or.inl (by decide)) (by decide) (by decide)
theorem getset_autoissue_nodb (hB : List Nat → Nat) (st : symbolTable)
    (v : List Nat) (hdb : st.db = none) :
    getsetValueIDPair hB st v 0 true =
      finishCache hB { st with nextID := st.nextID + 1 } v st.nextID := by
  unfold getsetValueIDPair
  rw [hdb]
  dsimp only
  rw [if_pos ⟨rfl, rfl⟩]

theorem getset_autoissue_db_hit (hB : List Nat → Nat) (st : symbolTable)
    (v : List Nat) (db : List (List Nat × List Nat)) (hdb : st.db = some db)
    (E : Nat)
    (hE : (match kvGet (forwardKey st.dbKeyPfx v) db with
      | some buf => if buf.length = IDSz then (idReadFrom buf).1 else 0
      | none => 0) = E)
    (hEz : E ≠ 0) :
    getsetValueIDPair hB st v 0 true = finishCache hB st v E := by
  unfold getsetValueIDPair
  rw [hdb]
  dsimp only
  rw [if_pos (Or.inl rfl)]
  rw [hE]
  rw [if_pos rfl]
  rw [if_pos hEz]
  dsimp only
  rw [if_neg (by simp : ¬ ((false : Bool) = true ∨ (false : Bool) = true))]

theorem getset_autoissue_db_miss (hB : List Nat → Nat) (st : symbolTable)
    (v : List Nat) (db : List (List Nat × List Nat)) (hdb : st.db = some db)
    (hE : (match kvGet (forwardKey st.dbKeyPfx v) db with
      | some buf => if buf.length = IDSz then (idReadFrom buf).1 else 0
      | none => 0) = 0) :
    getsetValueIDPair hB st v 0 true =
      finishCache hB
        { st with
          nextID := st.nextID + 1
          db := some (kvSet (reverseKey st.dbKeyPfx st.nextID) v
            (kvSet (forwardKey st.dbKeyPfx v) (idWriteTo st.nextID []) db)) }
        v st.nextID := by
  unfold getsetValueIDPair
  rw [hdb]
  dsimp only
  rw [if_pos (Or.inl rfl)]
  rw [hE]
  rw [if_pos rfl]
  rw [if_neg (by simp : ¬ ((0 : Nat) ≠ 0))]
  rw [if_pos rfl]
  dsimp only
  rw [if_pos (Or.inl rfl)]
  rw [if_pos rfl]
theorem poolSegment_congr {st₁ st₂ : symbolTable}
    (hbp : st₁.bufPools = st₂.bufPools) (kv : kvEntry) :
    poolSegment st₁ kv = poolSegment st₂ kv := by
  unfold poolSegment
  rw [hbp]

theorem probeAux_congr {st₁ st₂ : symbolTable}
    (hvc : st₁.valueCache = st₂.valueCache)
    (hbp : st₁.bufPools = st₂.bufPools) (buf : List Nat) :
    ∀ fuel h, probeAux st₁ buf fuel h = probeAux st₂ buf fuel h := by
  intro fuel
  induction fuel with
  | zero => intro h; rfl
  | succ f ih =>
    intro h
    rw [probeAux, probeAux, hvc]
    cases cacheGet h st₂.valueCache with
    | none => rfl
    | some kv =>
      dsimp only
      rw [equals_congr (poolSegment_congr hbp kv) buf]
      by_cases he : equals st₂ kv buf = true
      · rw [if_pos he, if_pos he]
      · rw [if_neg he, if_neg he, ih]

theorem probe_congr {st₁ st₂ : symbolTable}
    (hvc : st₁.valueCache = st₂.valueCache)
    (hbp : st₁.bufPools = st₂.bufPools) (buf : List Nat) (h : Nat) :
    probe st₁ buf h = probe st₂ buf h := by
  unfold probe
  rw [hvc, probeAux_congr hvc hbp]

theorem getIDFromCache_congr {st₁ st₂ : symbolTable}
    (hvc : st₁.valueCache = st₂.valueCache)
    (hbp : st₁.bufPools = st₂.bufPools) (hB : List Nat → Nat)
    (buf : List Nat) :
    getIDFromCache hB st₁ buf = getIDFromCache hB st₂ buf := by
  unfold getIDFromCache
  rw [probe_congr hvc hbp]

/-- C3, amended: for a non-empty value (or a table whose arena already has a
pool), `GetSymbolID(v, true)` on a well-formed table returns a non-zero ID
and a second call returns the same ID while leaving the entire table state —
in particular the backing KV store and the next-ID counter — unchanged. -/
theorem c3_amended (hB : List Nat → Nat) (st : symbolTable) (v : List Nat)
    (hG : GoodPools hB st) (hid : 0 < st.nextID)
    (hne : v ≠ [] ∨ st.bufPools ≠ []) :
    (GetSymbolID hB st v true).2 ≠ 0 ∧
    GetSymbolID hB (GetSymbolID hB st v true).1 v true =
      ((GetSymbolID hB st v true).1, (GetSymbolID hB st v true).2) := by
  by_cases h0 : getIDFromCache hB st v = 0
  · -- cache miss on the first call
    have hpn : ∃ hsh, probe st v (hB v) = (hsh, none) := by
      rcases getIDFromCache_cases hB st v with ⟨h1, hp1, _⟩ |
        ⟨h1, kv, hp1, hv1⟩
      · exact ⟨h1, hp1⟩
      · exfalso
        have hm := hG.vc_ok _ (cacheGet_mem (probe_found hp1).1)
        rw [hv1] at h0
        exact hm.1 h0
    obtain ⟨hsh, hpn⟩ := hpn
    have hfst : GetSymbolID hB st v true = getsetValueIDPair hB st v 0 true := by
      unfold GetSymbolID
      rw [h0]
      simp
    cases hdb : st.db with
    | none =>
      have hG' : GoodPools hB { st with nextID := st.nextID + 1 } :=
        ⟨hG.idx_last, hG.sz_le, hG.vc_ok, hG.tc_ok, hG.chain⟩
      have hpn' : probe { st with nextID := st.nextID + 1 } v (hB v) =
          (hsh, none) :=
        (@probe_congr { st with nextID := st.nextID + 1 } st rfl rfl v
          (hB v)).trans hpn
      obtain ⟨_, _, _, _, _, hGP1, _, hgid1, _⟩ :=
        alloc_spec hB { st with nextID := st.nextID + 1 } v st.nextID hG'
          (by omega) hne hpn'
      have hfin : finishCache hB { st with nextID := st.nextID + 1 } v
          st.nextID =
          ((allocAndBindToID hB { st with nextID := st.nextID + 1 } v
            st.nextID).1, st.nextID) := by
        unfold finishCache
        rw [if_pos (by omega : st.nextID ≠ 0)]
      have hres : GetSymbolID hB st v true =
          ((allocAndBindToID hB { st with nextID := st.nextID + 1 } v
            st.nextID).1, st.nextID) := by
        rw [hfst, getset_autoissue_nodb hB st v hdb, hfin]
      rw [hres]
      refine ⟨by show st.nextID ≠ 0; omega, ?_⟩
      unfold GetSymbolID
      dsimp only
      rw [hgid1]
      rw [if_pos (by omega : st.nextID ≠ 0)]
    | some db =>
      by_cases hEz : (match kvGet (forwardKey st.dbKeyPfx v) db with
        | some buf => if buf.length = IDSz then (idReadFrom buf).1 else 0
        | none => 0) = 0
      · -- no forward binding in the store either: issue a fresh ID
        have hG' : GoodPools hB
            { st with
              nextID := st.nextID + 1
              db := some (kvSet (reverseKey st.dbKeyPfx st.nextID) v
                (kvSet (forwardKey st.dbKeyPfx v)
                  (idWriteTo st.nextID []) db)) } :=
          ⟨hG.idx_last, hG.sz_le, hG.vc_ok, hG.tc_ok, hG.chain⟩
        have hpn' : probe
            { st with
              nextID := st.nextID + 1
              db := some (kvSet (reverseKey st.dbKeyPfx st.nextID) v
                (kvSet (forwardKey st.dbKeyPfx v)
                  (idWriteTo st.nextID []) db)) } v (hB v) =
            (hsh, none) :=
          (@probe_congr
            { st with
              nextID := st.nextID + 1
              db := some (kvSet (reverseKey st.dbKeyPfx st.nextID) v
                (kvSet (forwardKey st.dbKeyPfx v)
                  (idWriteTo st.nextID []) db)) } st rfl rfl v (hB v)).trans hpn
        obtain ⟨_, _, _, _, _, hGP1, _, hgid1, _⟩ :=
          alloc_spec hB
            { st with
              nextID := st.nextID + 1
              db := some (kvSet (reverseKey st.dbKeyPfx st.nextID) v
                (kvSet (forwardKey st.dbKeyPfx v)
                  (idWriteTo st.nextID []) db)) } v st.nextID hG'
            (by omega) hne hpn'
        have hfin : finishCache hB
            { st with
              nextID := st.nextID + 1
              db := some (kvSet (reverseKey st.dbKeyPfx st.nextID) v
                (kvSet (forwardKey st.dbKeyPfx v)
                  (idWriteTo st.nextID []) db)) } v st.nextID =
            ((allocAndBindToID hB
              { st with
                nextID := st.nextID + 1
                db := some (kvSet (reverseKey st.dbKeyPfx st.nextID) v
                  (kvSet (forwardKey st.dbKeyPfx v)
                    (idWriteTo st.nextID []) db)) } v st.nextID).1,
              st.nextID) := by
          unfold finishCache
          rw [if_pos (by omega : st.nextID ≠ 0)]
        have hres : GetSymbolID hB st v true =
            ((allocAndBindToID hB
              { st with
                nextID := st.nextID + 1
                db := some (kvSet (reverseKey st.dbKeyPfx st.nextID) v
                  (kvSet (forwardKey st.dbKeyPfx v)
                    (idWriteTo st.nextID []) db)) } v st.nextID).1,
              st.nextID) := by
          rw [hfst, getset_autoissue_db_miss hB st v db hdb hEz, hfin]
        rw [hres]
        refine ⟨by show st.nextID ≠ 0; omega, ?_⟩
        unfold GetSymbolID
        dsimp only
        rw [hgid1]
        rw [if_pos (by omega : st.nextID ≠ 0)]
      · -- the store already had a forward binding: adopt it
        obtain ⟨_, _, _, _, _, hGP1, _, hgid1, _⟩ :=
          alloc_spec hB st v _ hG hEz hne hpn
        have hfin : finishCache hB st v (match kvGet
            (forwardKey st.dbKeyPfx v) db with
          | some buf => if buf.length = IDSz then (idReadFrom buf).1 else 0
          | none => 0) =
            ((allocAndBindToID hB st v (match kvGet
              (forwardKey st.dbKeyPfx v) db with
            | some buf => if buf.length = IDSz then (idReadFrom buf).1 else 0
            | none => 0)).1, (match kvGet (forwardKey st.dbKeyPfx v) db with
            | some buf => if buf.length = IDSz then (idReadFrom buf).1 else 0
            | none => 0)) := by
          unfold finishCache
          rw [if_pos hEz]
        have hres : GetSymbolID hB st v true =
            ((allocAndBindToID hB st v (match kvGet
              (forwardKey st.dbKeyPfx v) db with
            | some buf => if buf.length = IDSz then (idReadFrom buf).1 else 0
            | none => 0)).1, (match kvGet (forwardKey st.dbKeyPfx v) db with
            | some buf => if buf.length = IDSz then (idReadFrom buf).1 else 0
            | none => 0)) := by
          rw [hfst, getset_autoissue_db_hit hB st v db hdb _ rfl hEz, hfin]
        rw [hres]
        refine ⟨hEz, ?_⟩
        unfold GetSymbolID
        dsimp only
        rw [hgid1]
        rw [if_pos hEz]
  · -- cache hit: both calls return the cached ID and change nothing
    have hfst : GetSymbolID hB st v true = (st, getIDFromCache hB st v) := by
      unfold GetSymbolID
      rw [if_pos h0]
    rw [hfst]
    exact ⟨h0, hfst⟩
/-- A freshly opened table satisfies the arena/cache invariant. -/
theorem goodPools_fresh (hB : List Nat → Nat) (pfx sz : Nat)
    (db : Option (List (List Nat × List Nat))) (n : Nat) :
    GoodPools hB (newTable pfx sz db n) := by
  refine ⟨by simp [newTable], by simp [newTable], ?_, ?_, ?_⟩
  · intro p hp
    simp [newTable] at hp
  · intro p hp
    simp [newTable] at hp
  · intro h kv hc
    simp [newTable, cacheGet] at hc

/-- A freshly opened table (empty or absent store, issuer at a positive ID)
satisfies the full consistency invariant. -/
theorem good_fresh (hB : List Nat → Nat) (pfx sz : Nat)
    (db : Option (List (List Nat × List Nat))) (n : Nat)
    (hdb : db = none ∨ db = some []) (hn : 0 < n) :
    Good hB (newTable pfx sz db n) := by
  have hfwd : ∀ v, dbFwd (newTable pfx sz db n) v = 0 := by
    intro v
    rcases hdb with h | h <;> subst h <;> simp [dbFwd, newTable, kvGet]
  have hrev : ∀ i, dbRev (newTable pfx sz db n) i = none := by
    intro i
    rcases hdb with h | h <;> subst h <;> simp [dbRev, newTable, kvGet]
  refine ⟨goodPools_fresh hB pfx sz db n, hn, ?_, ?_, ?_, ?_, ?_⟩
  · intro p hp
    simp [newTable] at hp
  · intro p hp
    simp [newTable] at hp
  · intro p hp
    simp [newTable] at hp
  · intro v hv
    rw [hfwd v] at hv
    exact absurd rfl hv
  · intro i w _ hw
    rw [hrev i] at hw
    cases hw

/-- C3, counterexample: interning the empty value on a fresh table returns
ID 1 but leaves an out-of-bounds entry (`poolIdx = -1`, no pool allocated)
at the probe slot of the empty value in the value cache.  A second
`GetSymbolID([], true)` probes that slot and evaluates `equals` on the
entry, which in Go indexes `bufPools[-1]` and panics (table.go:85) instead
of returning the same ID — the idempotence claim fails for the empty value
on a pristine table. -/
theorem c3_counterexample :
    (GetSymbolID tHash freshDB [] true).2 = 1 ∧
    cacheGet (tHash []) (GetSymbolID tHash freshDB [] true).1.valueCache =
      some { symID := 1, poolIdx := -1, poolOfs := 0, len := 0 } ∧
    ¬ entryBounds (GetSymbolID tHash freshDB [] true).1
      { symID := 1, poolIdx := -1, poolOfs := 0, len := 0 } := by
  decide

/-- C3 witness: idempotence at a concrete non-empty value. -/
theorem c3_witness :
    (GetSymbolID tHash freshDB alphaV true).2 ≠ 0 ∧
    GetSymbolID tHash (GetSymbolID tHash freshDB alphaV true).1 alphaV true =
      ((GetSymbolID tHash freshDB alphaV true).1,
       (GetSymbolID tHash freshDB alphaV true).2) :=
  c3_amended tHash freshDB alphaV (goodPools_fresh tHash 0 8 (some []) 1)
    (by decide) (Or.inl (by decide))

/-! ## Claim C2 — interning/lookup round-trip -/

/-- `getsetValueIDPair(v, 0, false)` with no backing store is a no-op
returning 0 (table.go:207-210 falls through to the flag block with a zero
ID and no reassignment). -/
theorem getset_noauto_nodb (hB : List Nat → Nat) (st : symbolTable)
    (v : List Nat) (hdb : st.db = none) :
    getsetValueIDPair hB st v 0 false = (st, 0) := by
  unfold getsetValueIDPair
  rw [hdb]
  dsimp only
  rw [if_neg (by simp : ¬ ((0 : Nat) = 0 ∧ (false : Bool) = true))]
  exact finishCache_zero hB st v

/-- `getsetValueIDPair(v, 0, false)` with a store holding no forward
binding for `v` is a no-op returning 0. -/
theorem getset_noauto_miss (hB : List Nat → Nat) (st : symbolTable)
    (v : List Nat) (db : List (List Nat × List Nat)) (hdb : st.db = some db)
    (hE : (match kvGet (forwardKey st.dbKeyPfx v) db with
      | some buf => if buf.length = IDSz then (idReadFrom buf).1 else 0
      | none => 0) = 0) :
    getsetValueIDPair hB st v 0 false = (st, 0) := by
  unfold getsetValueIDPair
  rw [hdb]
  dsimp only
  rw [if_pos (Or.inr rfl)]
  rw [hE]
  rw [if_pos rfl]
  rw [if_neg (by simp : ¬ ((0 : Nat) ≠ 0))]
  rw [if_neg (by simp : ¬ ((false : Bool) = true))]
  dsimp only
  rw [if_neg (by simp : ¬ ((false : Bool) = true ∨ (false : Bool) = true))]
  exact finishCache_zero hB st v

/-- On a consistent table, `GetSymbolID(v, false)` is pure: it returns the
cached ID (possibly 0) and leaves the table untouched (a cache miss cannot
meet a non-zero stored forward binding, by `Good.fwd_ok`). -/
theorem getID_false_pure (hB : List Nat → Nat) (st : symbolTable)
    (v : List Nat) (hG : Good hB st) :
    GetSymbolID hB st v false = (st, getIDFromCache hB st v) := by
  unfold GetSymbolID
  dsimp only
  by_cases h0 : getIDFromCache hB st v ≠ 0
  · rw [if_pos h0]
  · push_neg at h0
    rw [h0]
    rw [if_neg (by simp : ¬ ((0 : Nat) ≠ 0))]
    cases hdb : st.db with
    | none => exact getset_noauto_nodb hB st v hdb
    | some db =>
      have hE : (match kvGet (forwardKey st.dbKeyPfx v) db with
          | some buf => if buf.length = IDSz then (idReadFrom buf).1 else 0
          | none => 0) = 0 := by
        rw [← dbFwd_eq hdb v]
        by_contra hne
        obtain ⟨hgid, -⟩ := hG.fwd_ok v hne
        rw [h0] at hgid
        exact hne hgid.symm
      exact getset_noauto_miss hB st v db hdb hE

/-- A token-cache binding determines `LookupID`: the call returns the bound
bytes and leaves the table unchanged (table.go:311-315). -/
theorem tokenBound_lookup (hB : List Nat → Nat) (st : symbolTable)
    (x : Nat) (v : List Nat) (hG : Good hB st) (hb : tokenBound st x v) :
    LookupID hB st x = (st, v) := by
  obtain ⟨kv, hc, hseg⟩ := hb
  obtain ⟨hOK, hkey⟩ := hG.tc_ok _ (cacheGet_mem hc)
  have hx0 : ¬ (x = 0) := by
    intro he
    exact hOK.1 (hkey.trans he)
  unfold LookupID
  rw [if_neg hx0, hc]
  dsimp only
  unfold bufForEntry
  rw [if_neg hOK.1, hseg]

/-- On a consistent table, `LookupID` never mutates the state: a token-cache
miss with a stored reverse binding is impossible, because `Good.rev_ok` and
`Good.fwd_ok` force the value back into the caches. -/
theorem lookup_pure (hB : List Nat → Nat) (st : symbolTable) (i : Nat)
    (hG : Good hB st) (hNB : i < NB) :
    (LookupID hB st i).1 = st := by
  unfold LookupID
  by_cases h0 : i = 0
  · rw [if_pos h0]
  · rw [if_neg h0]
    cases hc : cacheGet i st.tokenCache with
    | some kv => rfl
    | none =>
      dsimp only
      cases hdb : st.db with
      | none => rfl
      | some db =>
        dsimp only
        cases hkv : kvGet (reverseKey st.dbKeyPfx i) db with
        | none => rfl
        | some w =>
          exfalso
          have hrev : dbRev st i = some w := by
            unfold dbRev
            rw [hdb]
            exact hkv
          obtain ⟨-, -, -, hfw⟩ := hG.rev_ok i w hNB hrev
          have hfwne : dbFwd st w ≠ 0 := by
            rw [hfw]
            exact h0
          obtain ⟨hgid, -⟩ := hG.fwd_ok w hfwne
          rw [hfw] at hgid
          rcases getIDFromCache_cases hB st w with ⟨h1, hp1, hz⟩ |
            ⟨h1, kv, hp1, hv⟩
          · rw [hz] at hgid
            exact h0 hgid.symm
          · rw [hv] at hgid
            obtain ⟨kv', hc', -⟩ :=
              hG.link _ (cacheGet_mem (probe_found hp1).1)
            rw [hgid] at hc'
            rw [hc'] at hc
            cases hc



/-- The fresh-issue step shared by the no-store and store paths of
`getsetValueIDPair(v, 0, true)` on a cache miss: allocating and binding the
fresh ID `st.nextID` on top of the administrative state `issueSt st d`
preserves every cache-side consistency clause, binds the new token, keeps
all old token bindings, and interns `v` under the fresh ID. -/
theorem issue_core (hB : List Nat → Nat) (st : symbolTable)
    (d : Option (List (List Nat × List Nat))) (v : List Nat)
    (hG : Good hB st) (hv : v ≠ [])
    {hsh : Nat} (hpn : probe st v (hB v) = (hsh, none)) :
    (allocAndBindToID hB (issueSt st d) v st.nextID).1.nextID
        = st.nextID + 1 ∧
    (allocAndBindToID hB (issueSt st d) v st.nextID).1.db = d ∧
    (allocAndBindToID hB (issueSt st d) v st.nextID).1.dbKeyPfx
        = st.dbKeyPfx ∧
    GoodPools hB (allocAndBindToID hB (issueSt st d) v st.nextID).1 ∧
    (∀ p ∈ (allocAndBindToID hB (issueSt st d) v st.nextID).1.valueCache,
      p.2.symID < st.nextID + 1) ∧
    (∀ p ∈ (allocAndBindToID hB (issueSt st d) v st.nextID).1.tokenCache,
      p.1 < st.nextID + 1) ∧
    (∀ p ∈ (allocAndBindToID hB (issueSt st d) v st.nextID).1.valueCache,
      ∃ kv', cacheGet p.2.symID
          (allocAndBindToID hB (issueSt st d) v st.nextID).1.tokenCache
            = some kv' ∧
        poolSegment (allocAndBindToID hB (issueSt st d) v st.nextID).1 kv'
          = poolSegment (allocAndBindToID hB (issueSt st d) v st.nextID).1
              p.2) ∧
    tokenBound (allocAndBindToID hB (issueSt st d) v st.nextID).1
      st.nextID v ∧
    (∀ y w, tokenBound st y w →
      tokenBound (allocAndBindToID hB (issueSt st d) v st.nextID).1 y w) ∧
    getIDFromCache hB (allocAndBindToID hB (issueSt st d) v st.nextID).1 v
      = st.nextID ∧
    (∀ u, u ≠ v →
      getIDFromCache hB (allocAndBindToID hB (issueSt st d) v st.nextID).1 u
        = getIDFromCache hB st u) := by
  have hGS : GoodPools hB (issueSt st d) :=
    ⟨hG.idx_last, hG.sz_le, hG.vc_ok, hG.tc_ok, hG.chain⟩
  have hpn' : probe (issueSt st d) v (hB v) = (hsh, none) :=
    (@probe_congr (issueSt st d) st rfl rfl v (hB v)).trans hpn
  have hpos := hG.nextID_pos
  have hnz : st.nextID ≠ 0 := by omega
  obtain ⟨hvc, htc, hsym, hsegN, holdseg, hGP1, hOKn, hgid1, hstab⟩ :=
    alloc_spec hB (issueSt st d) v st.nextID hGS hnz (Or.inl hv) hpn'
  have hadm := alloc_admin hB (issueSt st d) v st.nextID
  refine ⟨hadm.2.1, hadm.1, hadm.2.2.1, hGP1, ?_, ?_, ?_, ?_, ?_, hgid1, ?_⟩
  · intro p hp'
    rw [hvc] at hp'
    rcases mem_cacheSet hp' with he | hm
    · have h2 : p.2.symID = st.nextID := by
        rw [he]
        exact hsym
      omega
    · have := hG.vc_lt p hm
      omega
  · intro p hp'
    rw [htc] at hp'
    rcases mem_cacheSet hp' with he | hm
    · have h2 : p.1 = st.nextID := by
        rw [he]
      omega
    · have := hG.tc_lt p hm
      omega
  · intro p hp'
    rw [hvc] at hp'
    rcases mem_cacheSet hp' with he | hm
    · refine ⟨(allocAndBindToID hB (issueSt st d) v st.nextID).2, ?_, ?_⟩
      · rw [htc]
        have h2 : p.2.symID = st.nextID := by
          rw [he]
          exact hsym
        rw [h2]
        exact cacheGet_cacheSet_same _ _ _
      · have h3 : p.2 = (allocAndBindToID hB (issueSt st d) v st.nextID).2 := by
          rw [he]
        rw [h3]
    · obtain ⟨kv', hc', hseg'⟩ := hG.link p hm
      have hplt : p.2.symID < st.nextID := hG.vc_lt p hm
      have hOKkv' : entryOK st kv' := (hG.tc_ok _ (cacheGet_mem hc')).1
      have hOKp : entryOK st p.2 := hG.vc_ok p hm
      refine ⟨kv', ?_, ?_⟩
      · rw [htc]
        rw [cacheGet_cacheSet_ne _ _ _ _ (by omega : p.2.symID ≠ st.nextID)]
        exact hc'
      · rw [holdseg kv' hOKkv', holdseg p.2 hOKp]
        exact hseg'
  · refine ⟨(allocAndBindToID hB (issueSt st d) v st.nextID).2, ?_, hsegN⟩
    rw [htc]
    exact cacheGet_cacheSet_same _ _ _
  · intro y w hb
    obtain ⟨kv, hcY, hsegY⟩ := hb
    have hOKY : entryOK st kv := (hG.tc_ok _ (cacheGet_mem hcY)).1
    have hylt : y < st.nextID := hG.tc_lt _ (cacheGet_mem hcY)
    refine ⟨kv, ?_, ?_⟩
    · rw [htc, cacheGet_cacheSet_ne _ _ _ _ (by omega : y ≠ st.nextID)]
      exact hcY
    · rw [holdseg kv hOKY]
      exact hsegY
  · intro u hu
    rw [hstab u hu]
    exact @getIDFromCache_congr (issueSt st d) st rfl rfl hB u

/-- Full effect of `GetSymbolID(v, true)` on a consistent table: the result
state is consistent again, the returned ID is non-zero and token-bound to
`v`, the ID counter grows by at most one, and existing token bindings
survive.  (On a cache miss the store's forward binding is necessarily absent
too, so only the fresh-issue paths occur.) -/
theorem get_true_spec (hB : List Nat → Nat) (st : symbolTable)
    (v : List Nat) (hG : Good hB st) (hv : v ≠ []) (hNB : st.nextID < NB) :
    Good hB (GetSymbolID hB st v true).1 ∧
    (GetSymbolID hB st v true).2 ≠ 0 ∧
    tokenBound (GetSymbolID hB st v true).1 (GetSymbolID hB st v true).2 v ∧
    (GetSymbolID hB st v true).1.nextID ≤ st.nextID + 1 ∧
    (∀ y w, tokenBound st y w →
      tokenBound (GetSymbolID hB st v true).1 y w) := by
  have hpos := hG.nextID_pos
  have hnz : st.nextID ≠ 0 := by omega
  by_cases h0 : getIDFromCache hB st v ≠ 0
  · have hres : GetSymbolID hB st v true = (st, getIDFromCache hB st v) := by
      unfold GetSymbolID
      dsimp only
      rw [if_pos h0]
    rw [hres]
    dsimp only
    refine ⟨hG, h0, ?_, by omega, fun y w h => h⟩
    rcases getIDFromCache_cases hB st v with ⟨h1, hp1, hz⟩ |
      ⟨h1, kv, hp1, hvv⟩
    · exact absurd hz h0
    · obtain ⟨hc1, he1, -⟩ := probe_found hp1
      obtain ⟨kv', hc', hseg'⟩ := hG.link _ (cacheGet_mem hc1)
      rw [hvv]
      refine ⟨kv', hc', ?_⟩
      rw [hseg']
      exact (equals_seg he1).1
  · push_neg at h0
    have hpn : ∃ hsh, probe st v (hB v) = (hsh, none) := by
      rcases getIDFromCache_cases hB st v with ⟨h1, hp1, -⟩ |
        ⟨h1, kv, hp1, hv1⟩
      · exact ⟨h1, hp1⟩
      · exfalso
        have hm := hG.vc_ok _ (cacheGet_mem (probe_found hp1).1)
        rw [hv1] at h0
        exact hm.1 h0
    obtain ⟨hsh, hpn⟩ := hpn
    have hfst : GetSymbolID hB st v true =
        getsetValueIDPair hB st v 0 true := by
      unfold GetSymbolID
      rw [h0]
      simp
    cases hdb : st.db with
    | none =>
      obtain ⟨hnid, hdbA, hpfxA, hGP, hvlt, htlt, hlink, htb, hpres,
        hgid1, hstab⟩ := issue_core hB st st.db v hG hv hpn
      have hres : GetSymbolID hB st v true =
          ((allocAndBindToID hB (issueSt st st.db) v st.nextID).1,
            st.nextID) := by
        rw [hfst, getset_autoissue_nodb hB st v hdb]
        unfold finishCache
        rw [if_pos hnz]
        rfl
      rw [hres]
      dsimp only
      have hdbn : (allocAndBindToID hB (issueSt st st.db) v
          st.nextID).1.db = none := hdbA.trans hdb
      refine ⟨?_, ?_, ?_, ?_, ?_⟩
      · refine ⟨hGP, by omega, ?_, ?_, hlink, ?_, ?_⟩
        · intro p hp'
          have := hvlt p hp'
          omega
        · intro p hp'
          have := htlt p hp'
          omega
        · intro u hu
          exfalso
          apply hu
          unfold dbFwd
          rw [hdbn]
        · intro i w _ hw
          unfold dbRev at hw
          rw [hdbn] at hw
          cases hw
      · show st.nextID ≠ 0
        omega
      · exact htb
      · show (allocAndBindToID hB (issueSt st st.db) v
            st.nextID).1.nextID ≤ st.nextID + 1
        omega
      · exact hpres
    | some db =>
      have hE : (match kvGet (forwardKey st.dbKeyPfx v) db with
          | some buf => if buf.length = IDSz then (idReadFrom buf).1 else 0
          | none => 0) = 0 := by
        rw [← dbFwd_eq hdb v]
        by_contra hne
        obtain ⟨hgid, -⟩ := hG.fwd_ok v hne
        rw [h0] at hgid
        exact hne hgid.symm
      have h40 : NB < 2 ^ 40 := by decide
      have hn40 : st.nextID < 2 ^ 40 := by omega
      obtain ⟨hnid, hdbA, hpfxA, hGP, hvlt, htlt, hlink, htb, hpres,
        hgid1, hstab⟩ := issue_core hB st
          (some (kvSet (reverseKey st.dbKeyPfx st.nextID) v
            (kvSet (forwardKey st.dbKeyPfx v) (idWriteTo st.nextID []) db)))
          v hG hv hpn
      have hres : GetSymbolID hB st v true =
          ((allocAndBindToID hB
            (issueSt st (some (kvSet (reverseKey st.dbKeyPfx st.nextID) v
              (kvSet (forwardKey st.dbKeyPfx v) (idWriteTo st.nextID [])
                db)))) v st.nextID).1, st.nextID) := by
        rw [hfst, getset_autoissue_db_miss hB st v db hdb hE]
        unfold finishCache
        rw [if_pos hnz]
        rfl
      have hAfwd_v : dbFwd (allocAndBindToID hB
          (issueSt st (some (kvSet (reverseKey st.dbKeyPfx st.nextID) v
            (kvSet (forwardKey st.dbKeyPfx v) (idWriteTo st.nextID [])
              db)))) v st.nextID).1 v = st.nextID := by
        rw [dbFwd_eq hdbA v, hpfxA]
        rw [kvGet_kvSet_ne _ _ _ _
          (forwardKey_ne_reverseKey st.dbKeyPfx v st.nextID hNB)]
        rw [kvGet_kvSet_same]
        dsimp only
        exact fwdVal_parses st.nextID hn40
      have hAfwd_ne : ∀ u, u ≠ v → dbFwd (allocAndBindToID hB
          (issueSt st (some (kvSet (reverseKey st.dbKeyPfx st.nextID) v
            (kvSet (forwardKey st.dbKeyPfx v) (idWriteTo st.nextID [])
              db)))) v st.nextID).1 u = dbFwd st u := by
        intro u hu
        rw [dbFwd_eq hdbA u, hpfxA]
        rw [kvGet_kvSet_ne _ _ _ _
          (forwardKey_ne_reverseKey st.dbKeyPfx u st.nextID hNB)]
        rw [kvGet_kvSet_ne _ _ _ _
          (fun he => hu (forwardKey_inj st.dbKeyPfx u v he))]
        rw [← dbFwd_eq hdb u]
      have hArev_n : dbRev (allocAndBindToID hB
          (issueSt st (some (kvSet (reverseKey st.dbKeyPfx st.nextID) v
            (kvSet (forwardKey st.dbKeyPfx v) (idWriteTo st.nextID [])
              db)))) v st.nextID).1 st.nextID = some v := by
        unfold dbRev
        rw [hdbA, hpfxA]
        exact kvGet_kvSet_same _ _ _
      have hArev_ne : ∀ i, i < NB → i ≠ st.nextID → dbRev (allocAndBindToID hB
          (issueSt st (some (kvSet (reverseKey st.dbKeyPfx st.nextID) v
            (kvSet (forwardKey st.dbKeyPfx v) (idWriteTo st.nextID [])
              db)))) v st.nextID).1 i = dbRev st i := by
        intro i hiNB hin
        unfold dbRev
        rw [hdbA, hdb, hpfxA]
        dsimp only
        rw [kvGet_kvSet_ne _ _ _ _
          (fun he => hin
            (reverseKey_inj st.dbKeyPfx i st.nextID (by omega) hn40 he))]
        rw [kvGet_kvSet_ne _ _ _ _
          (Ne.symm (forwardKey_ne_reverseKey st.dbKeyPfx v i hiNB))]
      rw [hres]
      dsimp only
      refine ⟨?_, ?_, ?_, ?_, ?_⟩
      · refine ⟨hGP, by omega, ?_, ?_, hlink, ?_, ?_⟩
        · intro p hp'
          have := hvlt p hp'
          omega
        · intro p hp'
          have := htlt p hp'
          omega
        · intro u hu
          by_cases huv : u = v
          · subst huv
            rw [hAfwd_v]
            refine ⟨hgid1, ?_⟩
            omega
          · rw [hAfwd_ne u huv] at hu ⊢
            obtain ⟨hg2, hlt2⟩ := hG.fwd_ok u hu
            refine ⟨?_, ?_⟩
            · rw [hstab u huv]
              exact hg2
            · omega
        · intro i w hiNB hw
          by_cases hin : i = st.nextID
          · subst hin
            rw [hArev_n] at hw
            injection hw with hw
            subst hw
            refine ⟨hv, hnz, by omega, hAfwd_v⟩
          · rw [hArev_ne i hiNB hin] at hw
            obtain ⟨hw1, hw2, hw3, hw4⟩ := hG.rev_ok i w hiNB hw
            have hwv : w ≠ v := by
              intro he
              subst he
              have hne2 : dbFwd st w ≠ 0 := by
                rw [hw4]
                exact hw2
              obtain ⟨hg3, -⟩ := hG.fwd_ok w hne2
              rw [h0] at hg3
              exact hne2 hg3.symm
            refine ⟨hw1, hw2, by omega, ?_⟩
            rw [hAfwd_ne w hwv]
            exact hw4
      · show st.nextID ≠ 0
        omega
      · exact htb
      · show (allocAndBindToID hB
            (issueSt st (some (kvSet (reverseKey st.dbKeyPfx st.nextID) v
              (kvSet (forwardKey st.dbKeyPfx v) (idWriteTo st.nextID [])
                db)))) v st.nextID).1.nextID ≤ st.nextID + 1
        omega
      · exact hpres

/-- Any single well-formed operation preserves consistency, grows the ID
counter by at most one, and keeps every token binding. -/
theorem op_step (hB : List Nat → Nat) (st : symbolTable) (op : TOp)
    (hG : Good hB st) (hop : opOK op) (hNB : st.nextID < NB) :
    Good hB (runOp hB st op) ∧
    (runOp hB st op).nextID ≤ st.nextID + 1 ∧
    (∀ y w, tokenBound st y w → tokenBound (runOp hB st op) y w) := by
  cases op with
  | getID v auto =>
    cases auto with
    | false =>
      have hpure : runOp hB st (TOp.getID v false) = st := by
        show (GetSymbolID hB st v false).1 = st
        rw [getID_false_pure hB st v hG]
      rw [hpure]
      exact ⟨hG, by omega, fun y w h => h⟩
    | true =>
      have hv : v ≠ [] := hop rfl
      obtain ⟨h1, -, -, h4, h5⟩ := get_true_spec hB st v hG hv hNB
      exact ⟨h1, h4, h5⟩
  | look i =>
    have hpure : runOp hB st (TOp.look i) = st :=
      lookup_pure hB st i hG hop
    rw [hpure]
    exact ⟨hG, by omega, fun y w h => h⟩

/-- Operation sequences preserve consistency and token bindings while the
ID budget lasts. -/
theorem ops_step (hB : List Nat → Nat) (ops : List TOp) :
    ∀ st : symbolTable, Good hB st → (∀ op ∈ ops, opOK op) →
      st.nextID + ops.length ≤ NB →
      Good hB (runOps hB st ops) ∧
      (∀ y w, tokenBound st y w → tokenBound (runOps hB st ops) y w) := by
  induction ops with
  | nil =>
    intro st hG _ _
    exact ⟨hG, fun y w h => h⟩
  | cons op rest ih =>
    intro st hG hops hbud
    have hlen : (op :: rest).length = rest.length + 1 := by
      simp
    rw [hlen] at hbud
    have hNB : st.nextID < NB := by omega
    obtain ⟨hG1, hle1, hpres1⟩ :=
      op_step hB st op hG (hops op (List.mem_cons_self op rest)) hNB
    obtain ⟨hG2, hpres2⟩ := ih (runOp hB st op) hG1
      (fun o ho => hops o (List.mem_cons_of_mem op ho))
      (by omega)
    refine ⟨hG2, ?_⟩
    intro y w h
    exact hpres2 y w (hpres1 y w h)

/-- C2, amended: on a consistent table (`Good`: what interning and lookup
alone produce, e.g. any fresh table) and for a non-empty value `v`,
`GetSymbolID(v, true)` returns a non-zero ID `x`, and after any sequence of
subsequent well-formed operations (interning of non-empty values, lookups of
IDs below `NB`) that stays within the 40-bit ID budget, `LookupID(x)`
returns `v` and leaves the table unchanged.  The original claim fails for
tables also driven by `SetSymbolID` (see the counterexample). -/
theorem c2_amended (hB : List Nat → Nat) (st : symbolTable)
    (v : List Nat) (ops : List TOp) (hG : Good hB st) (hv : v ≠ [])
    (hops : ∀ op ∈ ops, opOK op)
    (hbud : st.nextID + ops.length < NB) :
    (GetSymbolID hB st v true).2 ≠ 0 ∧
    LookupID hB (runOps hB (GetSymbolID hB st v true).1 ops)
        (GetSymbolID hB st v true).2 =
      (runOps hB (GetSymbolID hB st v true).1 ops, v) := by
  have hNB : st.nextID < NB := by omega
  obtain ⟨hG1, hx0, htb, hle, -⟩ := get_true_spec hB st v hG hv hNB
  obtain ⟨hG2, hpres⟩ := ops_step hB ops (GetSymbolID hB st v true).1 hG1
    hops (by omega)
  exact ⟨hx0, tokenBound_lookup hB _ _ v hG2
    (hpres (GetSymbolID hB st v true).2 v htb)⟩

/-- C2 witness: the amended theorem applied on a fresh store-backed table,
interning `"alpha"`, then looking up ID 1 and interning `"beta"` before the
final lookup. -/
theorem c2_witness :
    alphaV ≠ [] ∧
    (GetSymbolID tHash freshDB alphaV true).2 ≠ 0 ∧
    LookupID tHash
        (runOps tHash (GetSymbolID tHash freshDB alphaV true).1
          [TOp.look 1, TOp.getID betaV true])
        (GetSymbolID tHash freshDB alphaV true).2 =
      (runOps tHash (GetSymbolID tHash freshDB alphaV true).1
        [TOp.look 1, TOp.getID betaV true], alphaV) := by
  have h := c2_amended tHash freshDB alphaV
    [TOp.look 1, TOp.getID betaV true]
    (good_fresh tHash 0 8 (some []) 1 (Or.inr rfl) (by decide))
    (by decide)
    (by
      intro op hop
      cases hop with
      | head => exact (by decide : (1 : Nat) < NB)
      | tail _ h2 =>
        cases h2 with
        | head => exact fun _ => (by decide : betaV ≠ [])
        | tail _ h3 => cases h3)
    (by decide)
  exact ⟨by decide, h.1, h.2⟩

/-- C2, counterexample: scenario E's table is reached by two `SetSymbolID`
calls; on it `GetSymbolID("alpha", true)` returns 7 (the stale forward
binding), yet an immediate `LookupID(7)` returns `"beta"`, not `"alpha"`. -/
theorem c2_counterexample :
    (GetSymbolID tHash scenarioE alphaV true).2 = 7 ∧
    (LookupID tHash (GetSymbolID tHash scenarioE alphaV true).1 7).2 = betaV ∧
    betaV ≠ alphaV := by
  decide

end ArcSpace
